import Mathlib

/-!
Shallow embedding of the b-asic fast-simulation core
(`src/simulation/compile.cpp`, `src/simulation/run.cpp`,
`src/simulation/simulation.cpp` and their headers), together with proofs
checking the specification's claims about it.

Machine numbers: the C++ `asic::number` is `std::complex<double>`.  All
values exercised by the specification's claims (small integers and masks)
are exactly representable in binary64, so doubles are embedded as exact
rationals; IEEE rounding, overflow to infinity and NaN are not modelled.
`std::sqrt` and `std::abs` on complex numbers are irrational-valued and are
kept opaque (parameters of the interpreter); no claim depends on them.
-/

/-- Exact rational scalar standing in for one `double` component.
Values are kept normalized (gcd-reduced, positive denominator) by every
arithmetic operation, so structural equality is value equality for all
numbers the embedded engine produces. -/
structure rat where
  num : Int
  den : Int
deriving DecidableEq, Repr

/-- Normalize: reduce by the gcd and make the denominator positive.
A zero denominator never arises from the embedded engine on the inputs the
claims use (it would be a division by zero, which is ±inf/NaN in C++ and is
not modelled). -/
def rat.norm (x : rat) : rat :=
  if x.den = 0 then ⟨x.num, 0⟩
  else
    let s : Int := if x.den < 0 then -1 else 1
    let g : Int := Int.ofNat (Int.gcd x.num x.den)
    ⟨Int.tdiv (s * x.num) g, Int.tdiv (s * x.den) g⟩

def rat.ofInt (n : Int) : rat := ⟨n, 1⟩

def rat.zero : rat := ⟨0, 1⟩

def rat.add (x y : rat) : rat := rat.norm ⟨x.num * y.den + y.num * x.den, x.den * y.den⟩

def rat.sub (x y : rat) : rat := rat.norm ⟨x.num * y.den - y.num * x.den, x.den * y.den⟩

def rat.mul (x y : rat) : rat := rat.norm ⟨x.num * y.num, x.den * y.den⟩

def rat.div (x y : rat) : rat := rat.norm ⟨x.num * y.den, x.den * y.num⟩

def rat.neg (x : rat) : rat := ⟨-x.num, x.den⟩

/-- `x < y` for normalized rationals (positive denominators). -/
def rat.blt (x y : rat) : Bool := decide (x.num * y.den < y.num * x.den)

/-- `std::min(a, b)`: returns `b` exactly when `b < a`. -/
def rat.minVal (x y : rat) : rat := if rat.blt y x then y else x

/-- `std::max(a, b)`: returns `b` exactly when `a < b`. -/
def rat.maxVal (x y : rat) : rat := if rat.blt x y then y else x

/-- `value != 0` on one component: with a nonzero denominator the value is
zero exactly when the numerator is. -/
def rat.isNonZero (x : rat) : Bool := decide (x.num ≠ 0)

/-- `static_cast<std::int64_t>(double)`: truncation toward zero.
(The C++ cast is undefined outside the int64 range; not modelled.) -/
def rat.truncToI64 (x : rat) : Int := Int.tdiv x.num x.den

/-- Bitwise AND of two nonnegative naturals, fuel-structured so that the
kernel can evaluate it (64 bits suffice for int64 operands). -/
def natLandAux : Nat → Nat → Nat → Nat
  | 0, _, _ => 0
  | f + 1, m, n => (m % 2) * (n % 2) + 2 * natLandAux f (m / 2) (n / 2)

/-- Two's-complement AND of an `int64` value with an `int64` bit mask, as in
`static_cast<std::int64_t>(value.real()) & bit_mask` (run.cpp:25): both
operands are reinterpreted as their 64 low bits. -/
def i64land (x mask : Int) : Int :=
  Int.ofNat (natLandAux 64 (x % (2 : Int) ^ 64).toNat (mask % (2 : Int) ^ 64).toNat)

/-- `asic::number = std::complex<double>`. -/
structure number where
  re : rat
  im : rat
deriving DecidableEq, Repr

def number.zero : number := ⟨rat.zero, rat.zero⟩

def number.ofInt (n : Int) : number := ⟨rat.ofInt n, rat.zero⟩

def number.add (x y : number) : number := ⟨rat.add x.re y.re, rat.add x.im y.im⟩

def number.sub (x y : number) : number := ⟨rat.sub x.re y.re, rat.sub x.im y.im⟩

def number.mul (x y : number) : number :=
  ⟨rat.sub (rat.mul x.re y.re) (rat.mul x.im y.im),
   rat.add (rat.mul x.re y.im) (rat.mul x.im y.re)⟩

/-- Complex division `(a+bi)/(c+di)`; division by zero is ±inf/NaN in C++
and is not modelled (the normalization returns a junk value there). -/
def number.div (x y : number) : number :=
  let d : rat := rat.add (rat.mul y.re y.re) (rat.mul y.im y.im)
  ⟨rat.div (rat.add (rat.mul x.re y.re) (rat.mul x.im y.im)) d,
   rat.div (rat.sub (rat.mul x.im y.re) (rat.mul x.re y.im)) d⟩

def number.conj (x : number) : number := ⟨x.re, rat.neg x.im⟩

instance : Inhabited number := ⟨number.zero⟩

instance : OfNat number n := ⟨number.ofInt (Int.ofNat n)⟩

instance : Neg number := ⟨fun x => ⟨rat.neg x.re, rat.neg x.im⟩⟩

/-! ## Instruction model (`simulation/instruction.hpp`)

The C++ `instruction` is an opcode enum next to a union holding the operand
(index, bit mask, or constant value); here the operand is fused into the
constructor of its opcode, plus the separate `result_index` slot.
Two-operand opcodes are documented in instruction.hpp as
`rhs = pop(); lhs = pop(); push(lhs OP rhs)` (run.cpp's `push(pop() OP pop())`
leaves the C++ evaluation order of the two pops unspecified; the embedding
follows the header's documented order, which is also the order the
repository's own expected outputs require). -/

inductive instruction_type where
  | push_input (index : Nat)
  | push_result (index : Nat)
  | push_delay (index : Nat)
  | push_constant (value : number)
  | quantize (bit_mask : Int)
  | addition
  | subtraction
  | multiplication
  | division
  | min
  | max
  | square_root
  | complex_conjugate
  | absolute
  | constant_multiplication (value : number)
  | update_delay (index : Nat)
  | custom (index : Nat)
  | forward_value
deriving DecidableEq, Repr

structure instruction where
  type : instruction_type
  result_index : Nat
deriving DecidableEq, Repr

/-- `simulation_code::custom_operation`: the Python callable is embedded as
an opaque Lean function `(output_index, input_values, quantize) ↦ number`. -/
structure custom_operation where
  evaluate_output : Nat → List number → Bool → number
  input_count : Nat
  output_count : Nat

structure custom_source where
  custom_operation_index : Nat
  output_index : Nat
deriving DecidableEq, Repr

structure delay_info where
  initial_value : number
  result_index : Nat
deriving DecidableEq, Repr

/-- `simulation_code` (compile.h). -/
structure simulation_code where
  instructions : List instruction
  custom_operations : List custom_operation
  custom_sources : List custom_source
  delays : List delay_info
  result_keys : List String
  input_count : Nat
  output_count : Nat
  required_stack_size : Nat

instance : Inhabited simulation_code := ⟨⟨[], [], [], [], [], 0, 0, 0⟩⟩

/-! ## Interpreter (`simulation/run.cpp`) -/

/-- Runtime failures.  The first three stand for the `ASIC_ASSERT`s guarding
the stack helpers (`push`, `pop`, `peek`); `index_out_of_range` stands for
out-of-bounds container indexing (assertion/UB in C++); the rest mirror the
thrown Python exceptions. -/
inductive run_error where
  | stack_overflow
  | stack_underflow
  | empty_peek
  | index_out_of_range
  | assertion_failed
  | complex_quantize
  | complex_order
  | quantization_too_wide
  | input_out_of_range
  | iteration_overflow
  | unlimited_run
  | wrong_number_of_inputs
  | input_index_out_of_range
  | inconsistent_input_length
deriving DecidableEq, Repr

/-- `std::sqrt` and `std::abs` on `std::complex<double>` are irrational in
general and are kept opaque; no claim depends on their values. -/
structure extra_ops where
  sqrt_fn : number → number
  abs_fn : number → number

/-- A trivial instantiation for concrete programs that never execute
`square_root`/`absolute` instructions. -/
def trivial_ops : extra_ops := ⟨fun v => v, fun v => v⟩

def read_at (l : List α) (i : Nat) : Except run_error α :=
  match l.get? i with
  | some v => .ok v
  | none => .error .index_out_of_range

def write_at (l : List α) (i : Nat) (v : α) : Except run_error (List α) :=
  if i < l.length then .ok (l.set i v) else .error .index_out_of_range

/-- `truncate_value` (run.cpp:21-26): reject values with a nonzero imaginary
part, otherwise cast the real part to int64 and AND it with the mask. -/
def truncate_value (value : number) (bit_mask : Int) : Except run_error number :=
  if rat.isNonZero value.im then .error .complex_quantize
  else .ok (number.ofInt (i64land (rat.truncToI64 value.re) bit_mask))

/-- `setup_truncation_parameters` (run.cpp:28-38).  The C++ mutates its two
by-reference parameters and returns the override mask; here the result is
`(truncate', bits_override-as-mask)`: if quantization is on and an override
is given, per-instruction `quantize` handling is disabled and the override
mask is active; if quantization is off the override is dropped entirely. -/
def setup_truncation_parameters (truncate : Bool) (bits_override : Option Nat) :
    Except run_error (Bool × Option Int) :=
  match bits_override with
  | some b =>
      if truncate then
        if b > 64 then .error .quantization_too_wide
        else .ok (false, some ((1 <<< (b : Int)) - 1))
      else .ok (truncate, none)
  | none => .ok (truncate, none)

/-- Mutable interpreter state: the value stack (head = top of stack), the
results vector (length `result_keys.length + 1`), and the delay registers. -/
structure interp_state where
  stack : List number
  results : List number
  delays : List number

/-- `push`: the C++ asserts the stack pointer is below the end of the
preallocated buffer of length `required_stack_size` before storing. -/
def stack_push (cap : Nat) (st : interp_state) (v : number) : Except run_error interp_state :=
  if st.stack.length < cap then .ok { st with stack := v :: st.stack }
  else .error .stack_overflow

def stack_pop (st : interp_state) : Except run_error (number × interp_state) :=
  match st.stack with
  | [] => .error .stack_underflow
  | v :: rest => .ok (v, { st with stack := rest })

def stack_peek (st : interp_state) : Except run_error number :=
  match st.stack with
  | [] => .error .empty_peek
  | v :: _ => .ok v

/-- Pop `n` values; element 0 of the returned list is the old top of stack
(the order in which the custom-op input vector is filled, run.cpp:151). -/
def stack_pop_n : Nat → interp_state → Except run_error (List number × interp_state)
  | 0, st => .ok ([], st)
  | n + 1, st => do
      let (v, st1) ← stack_pop st
      let (vs, st2) ← stack_pop_n n st1
      .ok (v :: vs, st2)

/-- One opcode dispatch (the `switch` in run.cpp:82-160). -/
def execute_opcode (eops : extra_ops) (code : simulation_code) (inputs : List number)
    (truncate : Bool) (ins : instruction) (st : interp_state) :
    Except run_error interp_state :=
  let cap := code.required_stack_size
  match ins.type with
  | .push_input i => do
      let v ← read_at inputs i
      stack_push cap st v
  | .push_result i => do
      let v ← read_at st.results i
      stack_push cap st v
  | .push_delay i => do
      let v ← read_at st.delays i
      stack_push cap st v
  | .push_constant v => stack_push cap st v
  | .quantize bit_mask =>
      if truncate then do
        let (v, st1) ← stack_pop st
        let v2 ← truncate_value v bit_mask
        stack_push cap st1 v2
      else .ok st
  | .addition => do
      let (rhs, st1) ← stack_pop st
      let (lhs, st2) ← stack_pop st1
      stack_push cap st2 (number.add lhs rhs)
  | .subtraction => do
      let (rhs, st1) ← stack_pop st
      let (lhs, st2) ← stack_pop st1
      stack_push cap st2 (number.sub lhs rhs)
  | .multiplication => do
      let (rhs, st1) ← stack_pop st
      let (lhs, st2) ← stack_pop st1
      stack_push cap st2 (number.mul lhs rhs)
  | .division => do
      let (rhs, st1) ← stack_pop st
      let (lhs, st2) ← stack_pop st1
      stack_push cap st2 (number.div lhs rhs)
  | .min => do
      let (rhs, st1) ← stack_pop st
      let (lhs, st2) ← stack_pop st1
      if rat.isNonZero lhs.im || rat.isNonZero rhs.im then .error .complex_order
      else stack_push cap st2 ⟨rat.minVal lhs.re rhs.re, rat.zero⟩
  | .max => do
      let (rhs, st1) ← stack_pop st
      let (lhs, st2) ← stack_pop st1
      if rat.isNonZero lhs.im || rat.isNonZero rhs.im then .error .complex_order
      else stack_push cap st2 ⟨rat.maxVal lhs.re rhs.re, rat.zero⟩
  | .square_root => do
      let (v, st1) ← stack_pop st
      stack_push cap st1 (eops.sqrt_fn v)
  | .complex_conjugate => do
      let (v, st1) ← stack_pop st
      stack_push cap st1 (number.conj v)
  | .absolute => do
      let (v, st1) ← stack_pop st
      stack_push cap st1 (eops.abs_fn v)
  | .constant_multiplication c => do
      let (v, st1) ← stack_pop st
      stack_push cap st1 (number.mul v c)
  | .update_delay i => do
      let (v, st1) ← stack_pop st
      let ds ← write_at st1.delays i v
      .ok { st1 with delays := ds }
  | .custom i => do
      let src ← read_at code.custom_sources i
      let op ← read_at code.custom_operations src.custom_operation_index
      let (input_values, st1) ← stack_pop_n op.input_count st
      stack_push cap st1 (op.evaluate_output src.output_index input_values truncate)
  | .forward_value => .ok st

/-- One full loop body: opcode, then the global override mask (if any), then
`results[ins.result_index] = peek()`. -/
def execute_instruction (eops : extra_ops) (code : simulation_code) (inputs : List number)
    (truncate : Bool) (bit_mask_override : Option Int) (ins : instruction)
    (st : interp_state) : Except run_error interp_state := do
  let st1 ← execute_opcode eops code inputs truncate ins st
  let st2 ←
    match bit_mask_override with
    | some m => do
        let (v, s) ← stack_pop st1
        let v2 ← truncate_value v m
        stack_push code.required_stack_size s v2
    | none => .ok st1
  let v ← stack_peek st2
  let rs ← write_at st2.results ins.result_index v
  .ok { st2 with results := rs }

def execute_instructions (eops : extra_ops) (code : simulation_code) (inputs : List number)
    (truncate : Bool) (bit_mask_override : Option Int) :
    List instruction → interp_state → Except run_error interp_state
  | [], st => .ok st
  | ins :: rest, st => do
      let st1 ← execute_instruction eops code inputs truncate bit_mask_override ins st
      execute_instructions eops code inputs truncate bit_mask_override rest st1

structure simulation_state where
  stack : List number
  results : List number

/-- Initialize the per-delay result slots: `results[delay.result_index] =
delays[i]` (run.cpp:51-53). -/
def init_delay_results : List delay_info → List number → List number →
    Except run_error (List number)
  | [], _, results => .ok results
  | d :: rest, delays, results => do
      let v ← read_at delays 0
      let rs ← write_at results d.result_index v
      init_delay_results rest (delays.drop 1) rs

/-- `run_simulation` (run.cpp:40-174).  Returns the final state (the output
prefix of the stack, in push order, and the results vector without the
ignored-sink slot) together with the updated delay registers (the C++
mutates the caller's span). -/
def run_simulation (eops : extra_ops) (code : simulation_code) (inputs : List number)
    (delays : List number) (bits_override : Option Nat) (truncate : Bool) :
    Except run_error (simulation_state × List number) := do
  if inputs.length ≠ code.input_count then .error .assertion_failed
  else if delays.length ≠ code.delays.length then .error .assertion_failed
  else if ¬ code.output_count ≤ code.required_stack_size then .error .assertion_failed
  else do
    let results0 := List.replicate (code.result_keys.length + 1) number.zero
    let results1 ← init_delay_results code.delays delays results0
    let (truncate2, bit_mask_override) ← setup_truncation_parameters truncate bits_override
    let st0 : interp_state := ⟨[], results1, delays⟩
    let st ← execute_instructions eops code inputs truncate2 bit_mask_override
      code.instructions st0
    .ok (⟨(st.stack.reverse).take code.output_count, st.results.dropLast⟩, st.delays)

/-! ## Source-graph surface and compiler (`simulation/compile.cpp`)

The compiler consumes Python graph objects through pybind11; nodes are
embedded as records indexed by a node id, and the C++ pointer identity of
`op.outputs[i]` (used for cycle detection and CSE keying) becomes the pair
`(node id, output index)`. -/

/-- `op.inputs[i].signals[0]`: source `(operation, index)` plus the optional
`bits` attribute. -/
structure signal_source where
  operation : Nat
  index : Nat
  bits : Option Nat := none
deriving Repr

/-- The node-attribute surface used by the compiler. `value` is read for
`"c"`/`"cmul"` nodes, `initial_value` for `"t"`, the operation lists for
`"sfg"`, and `evaluate_output` for custom nodes; unused attributes default. -/
structure graph_node where
  type_name : String
  graph_id : String
  input_count : Nat := 0
  output_count : Nat := 1
  inputs : List signal_source := []
  value : number := number.zero
  initial_value : number := number.zero
  input_operations : List Nat := []
  output_operations : List Nat := []
  evaluate_output : Nat → List number → Bool → number := fun _ _ _ => number.zero

/-- A source graph: nodes by id, and the id of the root node handed to
`compile_simulation` (the top-level SFG object). -/
structure graph where
  nodes : List graph_node
  root : Nat

inductive compile_error where
  | direct_feedback_loop
  | stray_input
  | io_count_mismatch
  | too_many_results
  | quantization_too_wide
  | bad_graph
  | out_of_fuel
deriving DecidableEq, Repr

def get_node (g : graph) (i : Nat) : Except compile_error graph_node :=
  match g.nodes.get? i with
  | some n => .ok n
  | none => .error .bad_graph

/-- `key_base` (compile.cpp:22-25). -/
def key_base (node : graph_node) (pfx : String) : String :=
  if pfx = "" then node.graph_id else pfx ++ "." ++ node.graph_id

/-- `key_of_output` (compile.cpp:27-36). -/
def key_of_output (node : graph_node) (output_index : Nat) (pfx : String) : String :=
  let base := key_base node pfx
  if base = "" then toString output_index
  else if node.output_count = 1 then base
  else base ++ "." ++ toString output_index

/-- `compiler::no_result_index = std::numeric_limits<result_index_type>::max()`. -/
def no_result_index : Nat := 65535

/-- The compiler's mutable members (compile.cpp:303-307). -/
structure compiler_state where
  m_code : simulation_code
  m_incomplete_outputs : List (Nat × Nat) := []
  m_added_results : List ((Nat × Nat) × Nat) := []
  m_added_custom_operations : List (Nat × Nat) := []
  m_stack_depth : Int := 0

/-- The deferred-delay queue: `(delay_index, node, prefix, sfg_stack)`.
The sfg stack holds `(sfg node id, prefix length)` with the innermost
(`back()`) entry at the head. -/
abbrev delay_queue := List (Nat × Nat × String × List (Nat × Nat))

/-- `compiler::add_instruction` (compile.cpp:131-143): apply the stack-depth
delta, fail on underflow, raise the high-water mark, append the instruction. -/
def add_instruction (σ : compiler_state) (t : instruction_type) (result_index : Nat)
    (stack_diff : Int) : Except compile_error compiler_state :=
  let depth := σ.m_stack_depth + stack_diff
  if depth < 0 then .error .io_count_mismatch
  else
    .ok { σ with
      m_stack_depth := depth,
      m_code := { σ.m_code with
        required_stack_size := max σ.m_code.required_stack_size depth.toNat,
        instructions := σ.m_code.instructions ++ [⟨t, result_index⟩] } }

/-- `compiler::begin_operation_output` (compile.cpp:145-169): cycle check,
then either allocate a fresh result slot (returning its index) or emit
`push_result` for an already-compiled output (returning `none`). -/
def begin_operation_output (σ : compiler_state) (node : graph_node) (op_id output_index : Nat)
    (pfx : String) : Except compile_error (Option Nat × compiler_state) :=
  let pointer : Nat × Nat := (op_id, output_index)
  if σ.m_incomplete_outputs.contains pointer ∧ node.type_name ≠ "t" then
    .error .direct_feedback_loop
  else
    match σ.m_added_results.lookup pointer with
    | none =>
        if σ.m_code.result_keys.length ≥ no_result_index then .error .too_many_results
        else
          let r := σ.m_code.result_keys.length
          .ok (some r,
            { σ with
              m_added_results := (pointer, r) :: σ.m_added_results,
              m_incomplete_outputs := pointer :: σ.m_incomplete_outputs,
              m_code := { σ.m_code with
                result_keys := σ.m_code.result_keys ++ [key_of_output node output_index pfx] } })
    | some r => do
        let σ1 ← add_instruction σ (.push_result r) r 1
        .ok (none, σ1)

/-- `compiler::end_operation_output` (compile.cpp:171-175). -/
def end_operation_output (σ : compiler_state) (op_id output_index : Nat) : compiler_state :=
  { σ with m_incomplete_outputs := σ.m_incomplete_outputs.erase (op_id, output_index) }

/-- `compiler::try_add_custom_operation` (compile.cpp:177-186). -/
def try_add_custom_operation (σ : compiler_state) (node : graph_node) (op_id : Nat) :
    Nat × compiler_state :=
  match σ.m_added_custom_operations.lookup op_id with
  | some idx => (idx, σ)
  | none =>
      let idx := σ.m_added_custom_operations.length
      (idx,
        { σ with
          m_added_custom_operations := σ.m_added_custom_operations ++ [(op_id, idx)],
          m_code := { σ.m_code with
            custom_operations := σ.m_code.custom_operations ++
              [⟨node.evaluate_output, node.input_count, node.output_count⟩] } })

/-- `compiler::add_delay_info` (compile.cpp:188-194). -/
def add_delay_info (σ : compiler_state) (initial_value : number) (result_index : Nat) :
    Nat × compiler_state :=
  (σ.m_code.delays.length,
   { σ with m_code := { σ.m_code with
       delays := σ.m_code.delays ++ [⟨initial_value, result_index⟩] } })

/-- `sfg_info::find_input_operation_index` (compile.cpp:60-67): position of
the Input node (by identity) in the SFG's `input_operations`. -/
def find_input_operation_index (g : graph) (sfg_id op_id : Nat) :
    Except compile_error Nat := do
  let node ← get_node g sfg_id
  match node.input_operations.findIdx? (fun x => x = op_id) with
  | some i => .ok i
  | none => .error .stray_input

/-! The emission recursion (`add_operation_output`/`add_source`,
compile.cpp:196-301).  The C++ recursion terminates because revisited
outputs hit the CSE cache or the cycle check; here the recursion carries
explicit fuel (every nested call strictly decreases it) and exhaustion is
the distinct failure `out_of_fuel`. -/

/-- Requests of the emission recursion: the C++ mutual recursion
`add_source` / `add_operation_output` / `add_unary_operation_output` /
`add_binary_operation_output` (plus the input loop of the custom branch) is
packed into one fuel-indexed function so that the recursion is structural on
the fuel; each constructor carries one original function's arguments. -/
inductive emit_req where
  | source (op_id input_index : Nat) (pfx : String) (stk : List (Nat × Nat))
  | output (op_id output_index : Nat) (pfx : String) (stk : List (Nat × Nat))
  | unary (op_id result_index : Nat) (pfx : String) (stk : List (Nat × Nat))
      (t : instruction_type)
  | binary (op_id result_index : Nat) (pfx : String) (stk : List (Nat × Nat))
      (t : instruction_type)
  | custom_inputs (op_id i n : Nat) (pfx : String) (stk : List (Nat × Nat))

/-- The emission recursion (compile.cpp:196-301).  The C++ recursion
terminates because revisited outputs hit the CSE cache or the cycle check;
here each nested call strictly decreases the fuel and exhaustion is the
distinct failure `out_of_fuel`. -/
def emit (g : graph) : Nat → emit_req → compiler_state → delay_queue →
    Except compile_error (compiler_state × delay_queue)
  | 0, _, _, _ => .error .out_of_fuel
  | f + 1, req, σ, q =>
      match req with
      | .source op_id input_index pfx stk => do
          -- `compiler::add_source` (compile.cpp:196-211): recurse into the
          -- signal's source output, then emit `quantize` if the signal has a
          -- `bits` attribute.
          let node ← get_node g op_id
          match node.inputs.get? input_index with
          | none => .error .bad_graph
          | some sig => do
              let (σ1, q1) ← emit g f (.output sig.operation sig.index pfx stk) σ q
              match sig.bits with
              | none => .ok (σ1, q1)
              | some bits =>
                  if bits > 64 then .error .quantization_too_wide
                  else do
                    let σ2 ← add_instruction σ1
                      (.quantize ((1 <<< (bits : Int)) - 1)) no_result_index 0
                    .ok (σ2, q1)
      | .unary op_id result_index pfx stk t => do
          -- `compiler::add_unary_operation_output` (compile.cpp:213-217).
          let (σ1, q1) ← emit g f (.source op_id 0 pfx stk) σ q
          let σ2 ← add_instruction σ1 t result_index 0
          .ok (σ2, q1)
      | .binary op_id result_index pfx stk t => do
          -- `compiler::add_binary_operation_output` (compile.cpp:219-224).
          let (σ1, q1) ← emit g f (.source op_id 0 pfx stk) σ q
          let (σ2, q2) ← emit g f (.source op_id 1 pfx stk) σ1 q1
          let σ3 ← add_instruction σ2 t result_index (-1)
          .ok (σ3, q2)
      | .custom_inputs op_id i n pfx stk =>
          -- the input loop of the custom branch (compile.cpp:289-291):
          -- emit sources i, i+1, …, n-1 in order.
          if i < n then do
            let (σ1, q1) ← emit g f (.source op_id i pfx stk) σ q
            emit g f (.custom_inputs op_id (i + 1) n pfx stk) σ1 q1
          else .ok (σ, q)
      | .output op_id output_index pfx stk => do
          -- `compiler::add_operation_output` (compile.cpp:226-301): `out`
          -- nodes are pass-throughs; otherwise begin the output (cycle
          -- check / CSE) and, for a fresh result index, dispatch on
          -- `type_name` to emit the body, finally removing the output from
          -- the in-progress set.
          let node ← get_node g op_id
          if node.type_name = "out" then
            emit g f (.source op_id 0 pfx stk) σ q
          else do
            match ← begin_operation_output σ node op_id output_index pfx with
            | (none, σ1) => .ok (σ1, q)
            | (some r, σ1) => do
                let (σ2, q2) ←
                  if node.type_name = "c" then do
                    let σ2 ← add_instruction σ1 (.push_constant node.value) r 1
                    .ok (σ2, q)
                  else if node.type_name = "add" then
                    emit g f (.binary op_id r pfx stk .addition) σ1 q
                  else if node.type_name = "sub" then
                    emit g f (.binary op_id r pfx stk .subtraction) σ1 q
                  else if node.type_name = "mul" then
                    emit g f (.binary op_id r pfx stk .multiplication) σ1 q
                  else if node.type_name = "div" then
                    emit g f (.binary op_id r pfx stk .division) σ1 q
                  else if node.type_name = "min" then
                    emit g f (.binary op_id r pfx stk .min) σ1 q
                  else if node.type_name = "max" then
                    emit g f (.binary op_id r pfx stk .max) σ1 q
                  else if node.type_name = "sqrt" then
                    emit g f (.unary op_id r pfx stk .square_root) σ1 q
                  else if node.type_name = "conj" then
                    emit g f (.unary op_id r pfx stk .complex_conjugate) σ1 q
                  else if node.type_name = "abs" then
                    emit g f (.unary op_id r pfx stk .absolute) σ1 q
                  else if node.type_name = "cmul" then do
                    let (σ2, q2) ← emit g f (.source op_id 0 pfx stk) σ1 q
                    let σ3 ← add_instruction σ2 (.constant_multiplication node.value) r 0
                    .ok (σ3, q2)
                  else if node.type_name = "bfly" then
                    if output_index = 0 then do
                      let (σ2, q2) ← emit g f (.source op_id 0 pfx stk) σ1 q
                      let (σ3, q3) ← emit g f (.source op_id 1 pfx stk) σ2 q2
                      let σ4 ← add_instruction σ3 .addition r (-1)
                      .ok (σ4, q3)
                    else do
                      let (σ2, q2) ← emit g f (.source op_id 0 pfx stk) σ1 q
                      let (σ3, q3) ← emit g f (.source op_id 1 pfx stk) σ2 q2
                      let σ4 ← add_instruction σ3 .subtraction r (-1)
                      .ok (σ4, q3)
                  else if node.type_name = "in" then
                    match stk with
                    | [] => .error .stray_input
                    | (sfg_id, pfx_len) :: rest => do
                        let input_index ← find_input_operation_index g sfg_id op_id
                        if stk.length = 1 then do
                          let σ2 ← add_instruction σ1 (.push_input input_index) r 1
                          .ok (σ2, q)
                        else do
                          let (σ2, q2) ←
                            emit g f (.source sfg_id input_index (pfx.take pfx_len) rest) σ1 q
                          let σ3 ← add_instruction σ2 .forward_value r 0
                          .ok (σ3, q2)
                  else if node.type_name = "t" then do
                    let (d, σ2) := add_delay_info σ1 node.initial_value r
                    let q2 := q ++ [(d, op_id, pfx, stk)]
                    let σ3 ← add_instruction σ2 (.push_delay d) r 1
                    .ok (σ3, q2)
                  else if node.type_name = "sfg" then
                    match node.output_operations.get? output_index with
                    | none => .error .bad_graph
                    | some out_op => do
                        let (σ2, q2) ← emit g f
                          (.source out_op 0 (key_base node pfx) ((op_id, pfx.length) :: stk)) σ1 q
                        let σ3 ← add_instruction σ2 .forward_value r 0
                        .ok (σ3, q2)
                  else do
                    let (ci, σ2) := try_add_custom_operation σ1 node op_id
                    match σ2.m_code.custom_operations.get? ci with
                    | none => .error .bad_graph
                    | some op => do
                        let (σ3, q3) ←
                          emit g f (.custom_inputs op_id 0 op.input_count pfx stk) σ2 q
                        let cs := σ3.m_code.custom_sources.length
                        let σ4 := { σ3 with m_code := { σ3.m_code with
                          custom_sources := σ3.m_code.custom_sources ++ [⟨ci, output_index⟩] } }
                        let σ5 ← add_instruction σ4 (.custom cs) r
                          (1 - (op.input_count : Int))
                        .ok (σ5, q3)
                .ok (end_operation_output σ2 op_id output_index, q2)

/-- `compiler::add_source`, as a wrapper around the packed recursion. -/
def add_source (g : graph) (fuel : Nat) (op_id input_index : Nat) (pfx : String)
    (stk : List (Nat × Nat)) (σ : compiler_state) (q : delay_queue) :
    Except compile_error (compiler_state × delay_queue) :=
  emit g fuel (.source op_id input_index pfx stk) σ q

/-- `compiler::add_operation_output`, as a wrapper around the packed
recursion. -/
def add_operation_output (g : graph) (fuel : Nat) (op_id output_index : Nat)
    (pfx : String) (stk : List (Nat × Nat)) (σ : compiler_state) (q : delay_queue) :
    Except compile_error (compiler_state × delay_queue) :=
  emit g fuel (.output op_id output_index pfx stk) σ q

/-- `compiler::add_outputs` (compile.cpp:84-88): emit each top-level output
`i ∈ [first, first+count)` of the root node in order. -/
def add_outputs_aux (g : graph) (fuel root_id : Nat) :
    Nat → Nat → compiler_state → delay_queue →
    Except compile_error (compiler_state × delay_queue)
  | 0, _, σ, q => .ok (σ, q)
  | count + 1, i, σ, q => do
      let (σ1, q1) ← add_operation_output g fuel root_id i "" [] σ q
      add_outputs_aux g fuel root_id count (i + 1) σ1 q1

/-- The loop body of `compiler::add_deferred_delays` (compile.cpp:93-96):
for each queued record emit the delay node's input-0 source and then
`update_delay` with the ignored result index.  The queue being appended to
by `add_source` is threaded through (C++ passes `deferred_delays` itself,
the vector under iteration) but the iteration covers only the records
present when the loop started (the range-for's cached end iterator). -/
def process_deferred (g : graph) (fuel : Nat) :
    delay_queue → compiler_state → delay_queue →
    Except compile_error (compiler_state × delay_queue)
  | [], σ, q => .ok (σ, q)
  | (d, op_id, pfx, stk) :: rest, σ, q => do
      let (σ1, q1) ← add_source g fuel op_id 0 pfx stk σ q
      let σ2 ← add_instruction σ1 (.update_delay d) no_result_index (-1)
      process_deferred g fuel rest σ2 q1

/-- `compiler::add_deferred_delays` (compile.cpp:90-99).  The `while` makes
at most one processing pass: records enqueued during the pass are appended
past the range-for's cached end (in C++ this also invalidates the iterators
— undefined behaviour; the non-reallocating behaviour is modelled), and the
queue is then overwritten by `new_deferred_delays`, which is never passed to
`add_source` and so is still empty, ending the loop. -/
def add_deferred_delays (g : graph) (fuel : Nat) (q : delay_queue) (σ : compiler_state) :
    Except compile_error compiler_state :=
  if q.isEmpty then .ok σ
  else do
    let (σ1, _appended) ← process_deferred g fuel q σ q
    .ok σ1

/-- `compiler::resolve_invalid_result_indices` (compile.cpp:101-107). -/
def resolve_invalid_result_indices (σ : compiler_state) : compiler_state :=
  { σ with m_code := { σ.m_code with
      instructions := σ.m_code.instructions.map (fun ins =>
        if ins.result_index = no_result_index then
          ⟨ins.type, σ.m_code.result_keys.length⟩
        else ins) } }

/-- `compile_simulation` / `compiler::compile` (compile.cpp:40-49): emit the
root's outputs, flush the deferred-delay queue, resolve the sentinel result
indices, and return the built code. -/
def compile_simulation (g : graph) (fuel : Nat) : Except compile_error simulation_code := do
  let root ← get_node g g.root
  let σ0 : compiler_state :=
    { m_code := { instructions := [], custom_operations := [], custom_sources := [],
                  delays := [], result_keys := [],
                  input_count := root.input_count, output_count := root.output_count,
                  required_stack_size := 0 } }
  let (σ1, q) ← add_outputs_aux g fuel g.root root.output_count 0 σ0 []
  let σ2 ← add_deferred_delays g fuel q σ1
  .ok (resolve_invalid_result_indices σ2).m_code

/-! ## Simulation driver (`simulation/simulation.cpp`, `simulation.h`)

C++ exceptions leave already-performed member mutations in place, so the
driver operations return the post-state paired with an optional error
(`simulation × Option run_error`), or with an `Except` result where the C++
returns a value. -/

/-- `input_provider_t = std::variant<number, std::vector<number>,
input_function_t>`.  Host callables may fail, so stored input functions are
`Nat → Except run_error number`. -/
inductive input_provider where
  | num (value : number)
  | vec (values : List number)
  | func (f : Nat → Except run_error number)

/-- The default input function installed by the constructor
(simulation.cpp:20): constantly zero. -/
def default_input_function : Nat → Except run_error number := fun _ => .ok number.zero

/-- The closure bound for a constant provider (simulation.cpp:37-39). -/
def const_input_function (value : number) : Nat → Except run_error number :=
  fun _ => .ok value

/-- The closure bound for a sequence provider (simulation.cpp:46-48):
`values.at(n)` — bounds-checked indexing that throws past the end. -/
def vec_input_function (values : List number) : Nat → Except run_error number :=
  fun n =>
    match values.get? n with
    | some v => .ok v
    | none => .error .input_out_of_range

structure simulation where
  m_code : simulation_code
  m_delays : List number
  m_input_functions : List (Nat → Except run_error number)
  m_input_length : Option Nat
  m_iteration : Nat
  m_results : List (List number)

/-- The constructor body (simulation.cpp:18-24) after `compile_simulation`
has produced `code` (the optional provider argument is handled by a separate
`set_inputs` call, as in the C++). -/
def simulation_of_code (code : simulation_code) : simulation :=
  { m_code := code,
    m_delays := code.delays.map (fun d => d.initial_value),
    m_input_functions := List.replicate code.input_count default_input_function,
    m_input_length := none,
    m_iteration := 0,
    m_results := [] }

/-- `simulation::set_input` (simulation.cpp:30-50). -/
def set_input (sim : simulation) (index : Nat) (p : input_provider) :
    simulation × Option run_error :=
  if index ≥ sim.m_input_functions.length then (sim, some .input_index_out_of_range)
  else
    match p with
    | .func f =>
        ({ sim with m_input_functions := sim.m_input_functions.set index f }, none)
    | .num v =>
        ({ sim with
           m_input_functions := sim.m_input_functions.set index (const_input_function v) },
         none)
    | .vec values =>
        match sim.m_input_length with
        | none =>
            ({ sim with
               m_input_length := some values.length,
               m_input_functions :=
                 sim.m_input_functions.set index (vec_input_function values) }, none)
        | some len =>
            if len ≠ values.length then (sim, some .inconsistent_input_length)
            else
              ({ sim with
                 m_input_functions :=
                   sim.m_input_functions.set index (vec_input_function values) }, none)

/-- The loop of `simulation::set_inputs` (simulation.cpp:58-62): `none`
entries are skipped; a failing `set_input` propagates, keeping the bindings
already made. -/
def set_inputs_loop : simulation → Nat → List (Option input_provider) →
    simulation × Option run_error
  | sim, _, [] => (sim, none)
  | sim, i, none :: rest => set_inputs_loop sim (i + 1) rest
  | sim, i, some p :: rest =>
      match set_input sim i p with
      | (sim1, none) => set_inputs_loop sim1 (i + 1) rest
      | (sim1, some e) => (sim1, some e)

/-- `simulation::set_inputs` (simulation.cpp:52-63): the length check comes
before any binding. -/
def set_inputs (sim : simulation) (providers : List (Option input_provider)) :
    simulation × Option run_error :=
  if providers.length ≠ sim.m_input_functions.length then
    (sim, some .wrong_number_of_inputs)
  else set_inputs_loop sim 0 providers

/-- Gather this iteration's inputs from the input functions
(simulation.cpp:74-77). -/
def gather_inputs : List (Nat → Except run_error number) → Nat →
    Except run_error (List number)
  | [], _ => .ok []
  | f :: rest, n => do
      let v ← f n
      let vs ← gather_inputs rest n
      .ok (v :: vs)

/-- The `while (m_iteration < iteration)` loop of `simulation::run_until`
(simulation.cpp:72-84), iterated `count` times; `result` holds the previous
iteration's output stack (initially empty). -/
def run_iterations (eops : extra_ops) (save_results : Bool) (bits_override : Option Nat)
    (truncate : Bool) :
    Nat → simulation → List number → simulation × Except run_error (List number)
  | 0, sim, result => (sim, .ok result)
  | count + 1, sim, _result =>
      match gather_inputs sim.m_input_functions sim.m_iteration with
      | .error e => (sim, .error e)
      | .ok inputs =>
          match run_simulation eops sim.m_code inputs sim.m_delays bits_override truncate with
          | .error e => (sim, .error e)
          | .ok (state, delays2) =>
              let sim1 := { sim with
                m_delays := delays2,
                m_results :=
                  if save_results then sim.m_results ++ [state.results]
                  else sim.m_results,
                m_iteration := sim.m_iteration + 1 }
              run_iterations eops save_results bits_override truncate count sim1 state.stack

/-- `simulation::run_until` (simulation.cpp:69-86): runs until `m_iteration`
reaches `iteration` and returns the last iteration's outputs (empty if
already there). -/
def run_until (eops : extra_ops) (sim : simulation) (iteration : Nat) (save_results : Bool)
    (bits_override : Option Nat) (truncate : Bool) :
    simulation × Except run_error (List number) :=
  run_iterations eops save_results bits_override truncate
    (iteration - sim.m_iteration) sim []

def u32_limit : Nat := 4294967295

/-- `simulation::run_for` (simulation.cpp:88-94): overflow-guarded advance
of the `uint32` iteration counter. -/
def run_for (eops : extra_ops) (sim : simulation) (iterations : Nat) (save_results : Bool)
    (bits_override : Option Nat) (truncate : Bool) :
    simulation × Except run_error (List number) :=
  if iterations > u32_limit - sim.m_iteration then (sim, .error .iteration_overflow)
  else run_until eops sim (sim.m_iteration + iterations) save_results bits_override truncate

/-- `simulation::step` (simulation.cpp:65-67). -/
def sim_step (eops : extra_ops) (sim : simulation) (save_results : Bool)
    (bits_override : Option Nat) (truncate : Bool) :
    simulation × Except run_error (List number) :=
  run_for eops sim 1 save_results bits_override truncate

/-- `simulation::run` (simulation.cpp:96-101): requires a bound finite input
length. -/
def sim_run (eops : extra_ops) (sim : simulation) (save_results : Bool)
    (bits_override : Option Nat) (truncate : Bool) :
    simulation × Except run_error (List number) :=
  match sim.m_input_length with
  | some len => run_until eops sim len save_results bits_override truncate
  | none => (sim, .error .unlimited_run)

/-- `simulation::results` (simulation.cpp:107-120): per result key, the
column of that key's value across the saved iterations (empty when nothing
was saved). -/
def sim_results (sim : simulation) : List (String × List number) :=
  if sim.m_results.isEmpty then []
  else sim.m_code.result_keys.enum.map (fun p =>
    (p.2, sim.m_results.map (fun r => r.getD p.1 number.zero)))

/-- `simulation::clear_results` (simulation.cpp:122-124). -/
def clear_results (sim : simulation) : simulation := { sim with m_results := [] }

/-- `simulation::clear_state` (simulation.cpp:126-128): `m_delays.clear()` —
the delay register vector is emptied. -/
def clear_state (sim : simulation) : simulation := { sim with m_delays := [] }

/-! ## Concrete graphs used by the specification's scenarios -/

/-- `c(3), c(4) → bfly → out0, out1` (spec §8 scenario 3).  Node 0 is the
top-level SFG object (empty `graph_id`), nodes 1-2 its two Output nodes. -/
def bfly_graph : graph := {
  nodes := [
    { type_name := "sfg", graph_id := "", input_count := 0, output_count := 2,
      output_operations := [1, 2] },
    { type_name := "out", graph_id := "out0", inputs := [⟨3, 0, none⟩] },
    { type_name := "out", graph_id := "out1", inputs := [⟨3, 1, none⟩] },
    { type_name := "bfly", graph_id := "bfly1", output_count := 2,
      inputs := [⟨4, 0, none⟩, ⟨5, 0, none⟩] },
    { type_name := "c", graph_id := "c1", value := number.ofInt 3 },
    { type_name := "c", graph_id := "c2", value := number.ofInt 4 }],
  root := 0 }

/-- `in0 → t(initial=0) → out` (spec §8 scenario 2). -/
def delay_graph : graph := {
  nodes := [
    { type_name := "sfg", graph_id := "", input_count := 1, output_count := 1,
      input_operations := [3], output_operations := [1] },
    { type_name := "out", graph_id := "out0", inputs := [⟨2, 0, none⟩] },
    { type_name := "t", graph_id := "t1", inputs := [⟨3, 0, none⟩] },
    { type_name := "in", graph_id := "in1" }],
  root := 0 }

/-- `in0 → t2(initial=0) → t1(initial=0) → out`: a delay whose input is
another delay, so the second delay is first reached only while the deferred
delay updates are being emitted. -/
def chain_graph : graph := {
  nodes := [
    { type_name := "sfg", graph_id := "", input_count := 1, output_count := 1,
      input_operations := [4], output_operations := [1] },
    { type_name := "out", graph_id := "out0", inputs := [⟨2, 0, none⟩] },
    { type_name := "t", graph_id := "t1", inputs := [⟨3, 0, none⟩] },
    { type_name := "t", graph_id := "t2", inputs := [⟨4, 0, none⟩] },
    { type_name := "in", graph_id := "in1" }],
  root := 0 }

/-- Accumulator `add(in0, t(add)) → out`: a feedback cycle through a delay
node. -/
def acc_graph : graph := {
  nodes := [
    { type_name := "sfg", graph_id := "", input_count := 1, output_count := 1,
      input_operations := [4], output_operations := [1] },
    { type_name := "out", graph_id := "out0", inputs := [⟨2, 0, none⟩] },
    { type_name := "add", graph_id := "add1", inputs := [⟨4, 0, none⟩, ⟨3, 0, none⟩] },
    { type_name := "t", graph_id := "t1", inputs := [⟨2, 0, none⟩] },
    { type_name := "in", graph_id := "in1" }],
  root := 0 }

/-- `add(add, c(1)) → out`: direct feedback with no delay on the cycle. -/
def fb_graph : graph := {
  nodes := [
    { type_name := "sfg", graph_id := "", input_count := 0, output_count := 1,
      output_operations := [1] },
    { type_name := "out", graph_id := "out0", inputs := [⟨2, 0, none⟩] },
    { type_name := "add", graph_id := "add1", inputs := [⟨2, 0, none⟩, ⟨3, 0, none⟩] },
    { type_name := "c", graph_id := "c1", value := number.ofInt 1 }],
  root := 0 }

/-- `c(17) --bits=4--> out` (spec §8 scenario 5). -/
def quant_graph : graph := {
  nodes := [
    { type_name := "sfg", graph_id := "", input_count := 0, output_count := 1,
      output_operations := [1] },
    { type_name := "out", graph_id := "out0", inputs := [⟨2, 0, some 4⟩] },
    { type_name := "c", graph_id := "c17", value := number.ofInt 17 }],
  root := 0 }

def code_of (e : Except compile_error simulation_code) : simulation_code :=
  match e with
  | .ok c => c
  | .error _ => default

def compile_ok (e : Except compile_error simulation_code) : Bool :=
  match e with
  | .ok _ => true
  | .error _ => false

def compile_err (e : Except compile_error simulation_code) : Option compile_error :=
  match e with
  | .ok _ => none
  | .error er => some er

def bfly_code : simulation_code := code_of (compile_simulation bfly_graph 50)

def delay_code : simulation_code := code_of (compile_simulation delay_graph 50)

def chain_code : simulation_code := code_of (compile_simulation chain_graph 50)

def acc_code : simulation_code := code_of (compile_simulation acc_graph 50)

def quant_code : simulation_code := code_of (compile_simulation quant_graph 50)

/-- The unit-delay driver with the input sequence `[5, 6, 7]` bound. -/
def delay_sim : simulation :=
  (set_input (simulation_of_code delay_code) 0
    (.vec [number.ofInt 5, number.ofInt 6, number.ofInt 7])).1

/-- The delay-chain driver with the input sequence `[5, 6]` bound. -/
def chain_sim : simulation :=
  (set_input (simulation_of_code chain_code) 0
    (.vec [number.ofInt 5, number.ofInt 6])).1

/-- The stored input function a provider binds (simulation.cpp:34-49). -/
def provider_function : input_provider → Nat → Except run_error number
  | .func f => f
  | .num v => const_input_function v
  | .vec values => vec_input_function values

/-! ## Stack-depth accounting

Used to state and prove the stack invariant (required operands, high-water
mark, final depth) of compiled programs. -/

/-- Operand requirement and net stack delta of one instruction; `none` when
a `custom` instruction's table indices dangle.  A `quantize` instruction
needs its operand only when quantization is on and the net delta is 0 in
both modes, so the requirement 1 covers both. -/
def instr_req_delta (code : simulation_code) : instruction_type → Option (Nat × Int)
  | .push_input _ => some (0, 1)
  | .push_result _ => some (0, 1)
  | .push_delay _ => some (0, 1)
  | .push_constant _ => some (0, 1)
  | .quantize _ => some (1, 0)
  | .addition => some (2, -1)
  | .subtraction => some (2, -1)
  | .multiplication => some (2, -1)
  | .division => some (2, -1)
  | .min => some (2, -1)
  | .max => some (2, -1)
  | .square_root => some (1, 0)
  | .complex_conjugate => some (1, 0)
  | .absolute => some (1, 0)
  | .constant_multiplication _ => some (1, 0)
  | .update_delay _ => some (1, -1)
  | .custom i =>
      match code.custom_sources.get? i with
      | none => none
      | some src =>
          match code.custom_operations.get? src.custom_operation_index with
          | none => none
          | some op => some (op.input_count, 1 - (op.input_count : Int))
  | .forward_value => some (0, 0)

/-- Walk an instruction sequence tracking the stack depth: each step needs
its operands present, must not grow past `required_stack_size`, and must
leave at least `floor + 1` values (the interpreter peeks the top of stack
after every instruction; blocks emitted above depth `floor` never dip back
to it). -/
def depth_run (code : simulation_code) (floor : Nat) :
    List instruction → Nat → Option Nat
  | [], d => some d
  | ins :: rest, d =>
      match instr_req_delta code ins.type with
      | none => none
      | some (req, delta) =>
          let d2 := ((d : Int) + delta).toNat
          if req ≤ d ∧ d2 ≤ code.required_stack_size ∧ floor + 1 ≤ d2 then
            depth_run code floor rest d2
          else none

/-- Decidable equality for `Except` results (not derived in core). -/
instance {ε α : Type} [DecidableEq ε] [DecidableEq α] : DecidableEq (Except ε α)
  | .ok a, .ok b =>
      if h : a = b then isTrue (h ▸ rfl)
      else isFalse (fun hh => h (by cases hh; rfl))
  | .ok _, .error _ => isFalse (fun hh => Except.noConfusion hh)
  | .error _, .ok _ => isFalse (fun hh => Except.noConfusion hh)
  | .error e1, .error e2 =>
      if h : e1 = e2 then isTrue (h ▸ rfl)
      else isFalse (fun hh => h (by cases hh; rfl))

/-- Value semantics of one two-operand opcode, `lhs ⊕ rhs` (instruction.hpp
comments; `min`/`max` reject complex operands, run.cpp:112-129). -/
def binary_result : instruction_type → number → number → Except run_error number
  | .addition, lhs, rhs => .ok (number.add lhs rhs)
  | .subtraction, lhs, rhs => .ok (number.sub lhs rhs)
  | .multiplication, lhs, rhs => .ok (number.mul lhs rhs)
  | .division, lhs, rhs => .ok (number.div lhs rhs)
  | .min, lhs, rhs =>
      if rat.isNonZero lhs.im || rat.isNonZero rhs.im then .error .complex_order
      else .ok ⟨rat.minVal lhs.re rhs.re, rat.zero⟩
  | .max, lhs, rhs =>
      if rat.isNonZero lhs.im || rat.isNonZero rhs.im then .error .complex_order
      else .ok ⟨rat.maxVal lhs.re rhs.re, rat.zero⟩
  | _, _, _ => .error .assertion_failed

/-- Append-only growth of the compiled tables and the stack high-water mark
during compilation. -/
def code_ext (c c2 : simulation_code) : Prop :=
  (∃ t, c2.custom_operations = c.custom_operations ++ t) ∧
  (∃ t, c2.custom_sources = c.custom_sources ++ t) ∧
  c.required_stack_size ≤ c2.required_stack_size

/-- One emission step appends a block of instructions that, run from the
compiler's entry stack depth `b`, stays strictly above `b` and ends at
`b + k`, within the (final) high-water mark. -/
def block_props (σ σ2 : compiler_state) (k : Nat) : Prop :=
  ∃ bl, σ2.m_code.instructions = σ.m_code.instructions ++ bl ∧
    code_ext σ.m_code σ2.m_code ∧
    σ2.m_code.output_count = σ.m_code.output_count ∧
    σ2.m_stack_depth = σ.m_stack_depth + (k : Int) ∧
    (∀ b : Nat, σ.m_stack_depth = (b : Int) →
      depth_run σ2.m_code b bl b = some (b + k))

/-- A code with two inputs and no instructions (witness fixture). -/
def two_input_code : simulation_code := ⟨[], [], [], [], [], 2, 0, 0⟩

def two_input_sim : simulation := simulation_of_code two_input_code

/-- A compiler state whose in-progress set holds output 0 of node 0
(witness fixture for the cycle check). -/
def dfl_state : compiler_state :=
  { m_code := two_input_code, m_incomplete_outputs := [(0, 0)] }

def dfl_node : graph_node := { type_name := "add", graph_id := "a" }

/-! ## Helper lemmas -/

set_option maxRecDepth 1000000

theorem truncate_value_spec (v : number) (mask : Int) :
    (truncate_value v mask = .error .complex_quantize ↔ rat.isNonZero v.im = true) ∧
    (rat.isNonZero v.im = false →
      truncate_value v mask = .ok (number.ofInt (i64land (rat.truncToI64 v.re) mask))) := by
  unfold truncate_value
  by_cases h : rat.isNonZero v.im = true
  · simp [h]
  · simp [h]

theorem quantize_exec (eops : extra_ops) (code : simulation_code) (inputs : List number)
    (ri : Nat) (mask : Int) (v : number) (rest res ds : List number)
    (h : rest.length < code.required_stack_size) :
    execute_opcode eops code inputs true ⟨.quantize mask, ri⟩ ⟨v :: rest, res, ds⟩ =
      (truncate_value v mask).bind (fun v2 => .ok ⟨v2 :: rest, res, ds⟩) := by
  cases htv : truncate_value v mask with
  | ok v2 => simp [execute_opcode, stack_pop, stack_push, htv, h, Bind.bind, Except.bind]
  | error e => simp [execute_opcode, stack_pop, stack_push, htv, Bind.bind, Except.bind]

theorem binary_exec (t : instruction_type)
    (ht : t ∈ [instruction_type.addition, .subtraction, .multiplication, .division, .min, .max])
    (eops : extra_ops) (code : simulation_code) (inputs : List number) (ri : Nat)
    (lhs rhs : number) (rest res ds : List number)
    (h : rest.length + 1 < code.required_stack_size) :
    execute_opcode eops code inputs true ⟨t, ri⟩ ⟨rhs :: lhs :: rest, res, ds⟩ =
      (binary_result t lhs rhs).bind (fun v => .ok ⟨v :: rest, res, ds⟩) := by
  have h2 : rest.length < code.required_stack_size := Nat.lt_of_succ_lt h
  simp only [List.mem_cons, List.not_mem_nil, or_false] at ht
  rcases ht with rfl | rfl | rfl | rfl | rfl | rfl
  · simp [execute_opcode, stack_pop, stack_push, binary_result, h2, Bind.bind, Except.bind]
  · simp [execute_opcode, stack_pop, stack_push, binary_result, h2, Bind.bind, Except.bind]
  · simp [execute_opcode, stack_pop, stack_push, binary_result, h2, Bind.bind, Except.bind]
  · simp [execute_opcode, stack_pop, stack_push, binary_result, h2, Bind.bind, Except.bind]
  · by_cases hc : (rat.isNonZero lhs.im || rat.isNonZero rhs.im) = true
    · simp [execute_opcode, stack_pop, stack_push, binary_result, hc, Bind.bind, Except.bind]
    · simp only [Bool.not_eq_true] at hc
      simp [execute_opcode, stack_pop, stack_push, binary_result, hc, h2, Bind.bind, Except.bind]
  · by_cases hc : (rat.isNonZero lhs.im || rat.isNonZero rhs.im) = true
    · simp [execute_opcode, stack_pop, stack_push, binary_result, hc, Bind.bind, Except.bind]
    · simp only [Bool.not_eq_true] at hc
      simp [execute_opcode, stack_pop, stack_push, binary_result, hc, h2, Bind.bind, Except.bind]

theorem setup_not_quantize (bo : Option Nat) :
    setup_truncation_parameters false bo = .ok (false, none) := by
  cases bo <;> rfl

theorem vec_input_function_oob (values : List number) (n : Nat) (h : values.length ≤ n) :
    vec_input_function values n = .error .input_out_of_range := by
  unfold vec_input_function
  rw [List.get?_len_le h]

theorem set_input_vec_get (sim : simulation) (index : Nat) (values : List number)
    (h : (set_input sim index (.vec values)).2 = none) :
    (set_input sim index (.vec values)).1.m_input_functions.get? index =
      some (vec_input_function values) := by
  unfold set_input at *
  by_cases hi : index ≥ sim.m_input_functions.length
  · simp [hi] at h
  · simp only [if_neg hi] at *
    push_neg at hi
    cases hl : sim.m_input_length with
    | none => simp [hl, List.getElem?_set_self hi]
    | some len =>
        by_cases hlen : len ≠ values.length
        · simp [hl, hlen] at h
        · simp [hl, hlen, List.getElem?_set_self hi]

theorem set_input_preserve (sim : simulation) (i : Nat) (p : input_provider) (j : Nat)
    (hj : j ≠ i) :
    (set_input sim i p).1.m_input_functions.get? j = sim.m_input_functions.get? j := by
  unfold set_input
  by_cases hi : i ≥ sim.m_input_functions.length
  · simp [hi]
  · simp only [if_neg hi]
    cases p with
    | func f => simp [List.getElem?_set_ne (Ne.symm hj)]
    | num v => simp [List.getElem?_set_ne (Ne.symm hj)]
    | vec values =>
        cases hl : sim.m_input_length with
        | none => simp [List.getElem?_set_ne (Ne.symm hj)]
        | some len =>
            by_cases hlen : len ≠ values.length
            · simp [hlen]
            · simp [hlen, List.getElem?_set_ne (Ne.symm hj)]

theorem set_input_ok_get (sim : simulation) (i : Nat) (p : input_provider)
    (h : (set_input sim i p).2 = none) :
    (set_input sim i p).1.m_input_functions.get? i = some (provider_function p) := by
  unfold set_input at *
  by_cases hi : i ≥ sim.m_input_functions.length
  · simp [hi] at h
  · simp only [if_neg hi] at *
    push_neg at hi
    cases p with
    | func f => simp [provider_function, List.getElem?_set_self hi]
    | num v => simp [provider_function, List.getElem?_set_self hi]
    | vec values =>
        cases hl : sim.m_input_length with
        | none => simp [hl, provider_function, List.getElem?_set_self hi]
        | some len =>
            by_cases hlen : len ≠ values.length
            · simp [hl, hlen] at h
            · simp [hl, hlen, provider_function, List.getElem?_set_self hi]

theorem set_inputs_loop_preserve (providers : List (Option input_provider)) :
    ∀ (sim : simulation) (start : Nat) (j : Nat), j < start →
      (set_inputs_loop sim start providers).1.m_input_functions.get? j =
        sim.m_input_functions.get? j := by
  induction providers with
  | nil => intro sim start j _; rfl
  | cons p rest ih =>
      intro sim start j hj
      cases p with
      | none =>
          show (set_inputs_loop sim (start + 1) rest).1.m_input_functions.get? j = _
          exact ih sim (start + 1) j (Nat.lt_succ_of_lt hj)
      | some pp =>
          show (match set_input sim start pp with
            | (sim1, none) => set_inputs_loop sim1 (start + 1) rest
            | (sim1, some e) => (sim1, some e)).1.m_input_functions.get? j = _
          cases hsi : set_input sim start pp with
          | mk sim1 e =>
              have hpres : sim1.m_input_functions.get? j = sim.m_input_functions.get? j := by
                have h2 := set_input_preserve sim start pp j (Nat.ne_of_lt hj)
                rw [hsi] at h2
                exact h2
              cases e with
              | none => simpa using (ih sim1 (start + 1) j (Nat.lt_succ_of_lt hj)).trans hpres
              | some er => simpa using hpres

theorem set_inputs_loop_spec (providers : List (Option input_provider)) :
    ∀ (sim : simulation) (start : Nat),
      (set_inputs_loop sim start providers).2 = none →
      ∀ j,
        (providers.get? j = some none →
          (set_inputs_loop sim start providers).1.m_input_functions.get? (start + j) =
            sim.m_input_functions.get? (start + j)) ∧
        (∀ p, providers.get? j = some (some p) →
          (set_inputs_loop sim start providers).1.m_input_functions.get? (start + j) =
            some (provider_function p)) := by
  induction providers with
  | nil =>
      intro sim start _ j
      constructor
      · intro hg; cases hg
      · intro p hg; cases hg
  | cons q rest ih =>
      intro sim start hnone j
      cases q with
      | none =>
          have hnone2 : (set_inputs_loop sim (start + 1) rest).2 = none := hnone
          cases j with
          | zero =>
              constructor
              · intro _
                exact set_inputs_loop_preserve rest sim (start + 1) (start + 0) (by omega)
              · intro p hg; simp at hg
          | succ j2 =>
              have h3 := ih sim (start + 1) hnone2 j2
              have harith : start + 1 + j2 = start + (j2 + 1) := by omega
              constructor
              · intro hg
                have h2 := h3.1 (by simpa using hg)
                rw [harith] at h2
                exact h2
              · intro p hg
                have h2 := h3.2 p (by simpa using hg)
                rw [harith] at h2
                exact h2
      | some pp =>
          cases hsi : set_input sim start pp with
          | mk sim1 e =>
              have hred : set_inputs_loop sim start (some pp :: rest) =
                  (match set_input sim start pp with
                    | (s1, none) => set_inputs_loop s1 (start + 1) rest
                    | (s1, some er) => (s1, some er)) := rfl
              rw [hsi] at hred
              cases e with
              | some er =>
                  rw [hred] at hnone
                  cases hnone
              | none =>
                  have hnone2 : (set_inputs_loop sim1 (start + 1) rest).2 = none := by
                    rw [hred] at hnone
                    exact hnone
                  rw [hred]
                  cases j with
                  | zero =>
                      constructor
                      · intro hg; simp at hg
                      · intro p hg
                        simp only [List.get?] at hg
                        have hg2 : pp = p := by cases hg; rfl
                        subst hg2
                        have hget : sim1.m_input_functions.get? start =
                            some (provider_function pp) := by
                          have h3 := set_input_ok_get sim start pp
                          rw [hsi] at h3
                          exact h3 rfl
                        have h4 := set_inputs_loop_preserve rest sim1 (start + 1) (start + 0)
                          (by omega)
                        rw [h4]
                        simpa using hget
                  | succ j2 =>
                      have h3 := ih sim1 (start + 1) hnone2 j2
                      have harith : start + 1 + j2 = start + (j2 + 1) := by omega
                      constructor
                      · intro hg
                        have h2 := h3.1 (by simpa using hg)
                        rw [harith] at h2
                        rw [h2]
                        have h5 := set_input_preserve sim start pp (start + (j2 + 1)) (by omega)
                        rw [hsi] at h5
                        exact h5
                      · intro p hg
                        have h2 := h3.2 p (by simpa using hg)
                        rw [harith] at h2
                        exact h2

theorem begin_operation_output_dfl_iff (σ : compiler_state) (node : graph_node)
    (op_id output_index : Nat) (pfx : String) :
    begin_operation_output σ node op_id output_index pfx = .error .direct_feedback_loop ↔
      (σ.m_incomplete_outputs.contains (op_id, output_index) = true ∧
        node.type_name ≠ "t") := by
  unfold begin_operation_output
  by_cases hc : σ.m_incomplete_outputs.contains (op_id, output_index) = true ∧
      node.type_name ≠ "t"
  · rw [if_pos hc]
    exact iff_of_true rfl hc
  · rw [if_neg hc]
    apply iff_of_false
    · cases hl : (σ.m_added_results.lookup (op_id, output_index)) with
      | none =>
          by_cases hk : σ.m_code.result_keys.length ≥ no_result_index
          · simp [hl, hk]
          · simp [hl, hk]
      | some r =>
          unfold add_instruction
          by_cases hd : σ.m_stack_depth + 1 < 0
          · simp [hl, hd, Bind.bind, Except.bind]
          · simp [hl, hd, Bind.bind, Except.bind]
    · exact hc

/-! ## Stack-discipline lemmas for C3 -/

theorem depth_run_cons (code : simulation_code) (floor : Nat) (ins : instruction)
    (rest : List instruction) (d : Nat) :
    depth_run code floor (ins :: rest) d =
      (match instr_req_delta code ins.type with
      | none => none
      | some (req, delta) =>
          if req ≤ d ∧ ((d : Int) + delta).toNat ≤ code.required_stack_size ∧
              floor + 1 ≤ ((d : Int) + delta).toNat then
            depth_run code floor rest (((d : Int) + delta).toNat)
          else none) := rfl

theorem depth_run_append (code : simulation_code) (floor : Nat) :
    ∀ (l1 l2 : List instruction) (d : Nat),
      depth_run code floor (l1 ++ l2) d =
        (depth_run code floor l1 d).bind (depth_run code floor l2) := by
  intro l1
  induction l1 with
  | nil => intro l2 d; rfl
  | cons ins rest ih =>
      intro l2 d
      rw [List.cons_append, depth_run_cons, depth_run_cons]
      cases hrd : instr_req_delta code ins.type with
      | none => rfl
      | some rd =>
          obtain ⟨req, delta⟩ := rd
          by_cases hc : req ≤ d ∧ ((d : Int) + delta).toNat ≤ code.required_stack_size ∧
              floor + 1 ≤ ((d : Int) + delta).toNat
          · simp only [if_pos hc]
            exact ih l2 _
          · simp only [if_neg hc, Option.none_bind]

theorem depth_run_cons_inv (code : simulation_code) (floor : Nat) (ins : instruction)
    (rest : List instruction) (d d2 : Nat)
    (h : depth_run code floor (ins :: rest) d = some d2) :
    ∃ req delta, instr_req_delta code ins.type = some (req, delta) ∧
      req ≤ d ∧ ((d : Int) + delta).toNat ≤ code.required_stack_size ∧
      floor + 1 ≤ ((d : Int) + delta).toNat ∧
      depth_run code floor rest (((d : Int) + delta).toNat) = some d2 := by
  rw [depth_run_cons] at h
  cases hrd : instr_req_delta code ins.type with
  | none => rw [hrd] at h; cases h
  | some rd =>
      obtain ⟨req, delta⟩ := rd
      rw [hrd] at h
      replace h : (if req ≤ d ∧ ((d : Int) + delta).toNat ≤ code.required_stack_size ∧
          floor + 1 ≤ ((d : Int) + delta).toNat then
            depth_run code floor rest (((d : Int) + delta).toNat)
          else none) = some d2 := h
      by_cases hc : req ≤ d ∧ ((d : Int) + delta).toNat ≤ code.required_stack_size ∧
          floor + 1 ≤ ((d : Int) + delta).toNat
      · rw [if_pos hc] at h
        exact ⟨req, delta, rfl, hc.1, hc.2.1, hc.2.2, h⟩
      · rw [if_neg hc] at h
        cases h

theorem depth_run_cons_intro (code : simulation_code) (floor : Nat) (ins : instruction)
    (rest : List instruction) (d d2 req : Nat) (delta : Int)
    (hrd : instr_req_delta code ins.type = some (req, delta))
    (h1 : req ≤ d) (h2 : ((d : Int) + delta).toNat ≤ code.required_stack_size)
    (h3 : floor + 1 ≤ ((d : Int) + delta).toNat)
    (h4 : depth_run code floor rest (((d : Int) + delta).toNat) = some d2) :
    depth_run code floor (ins :: rest) d = some d2 := by
  rw [depth_run_cons, hrd]
  show (if req ≤ d ∧ ((d : Int) + delta).toNat ≤ code.required_stack_size ∧
      floor + 1 ≤ ((d : Int) + delta).toNat then
        depth_run code floor rest (((d : Int) + delta).toNat)
      else none) = some d2
  rw [if_pos ⟨h1, h2, h3⟩]
  exact h4

theorem depth_run_floor_mono (code : simulation_code) (f1 f2 : Nat) (hf : f2 ≤ f1) :
    ∀ (l : List instruction) (d d2 : Nat),
      depth_run code f1 l d = some d2 → depth_run code f2 l d = some d2 := by
  intro l
  induction l with
  | nil => intro d d2 h; exact h
  | cons ins rest ih =>
      intro d d2 h
      obtain ⟨req, delta, hrd, h1, h2, h3, h4⟩ := depth_run_cons_inv _ _ _ _ _ _ h
      exact depth_run_cons_intro _ _ _ _ _ _ _ _ hrd h1 h2 (by omega) (ih _ _ h4)

theorem instr_req_delta_custom (code : simulation_code) (i : Nat) :
    instr_req_delta code (.custom i) =
      (match code.custom_sources.get? i with
      | none => none
      | some src =>
          match code.custom_operations.get? src.custom_operation_index with
          | none => none
          | some op => some (op.input_count, 1 - (op.input_count : Int))) := rfl

theorem instr_req_delta_ext (c c2 : simulation_code) (hext : code_ext c c2)
    (t : instruction_type) (rd : Nat × Int) (h : instr_req_delta c t = some rd) :
    instr_req_delta c2 t = some rd := by
  cases t <;> try exact h
  case custom i =>
      rw [instr_req_delta_custom] at h ⊢
      obtain ⟨⟨t1, ht1⟩, ⟨t2, ht2⟩, _⟩ := hext
      cases hs : c.custom_sources.get? i with
      | none => rw [hs] at h; cases h
      | some src =>
          rw [hs] at h
          replace h : (match c.custom_operations.get? src.custom_operation_index with
            | none => none
            | some op => some (op.input_count, 1 - (op.input_count : Int))) = some rd := h
          have hlt : i < c.custom_sources.length := by
            by_contra hge
            rw [List.get?_len_le (by omega)] at hs
            cases hs
          rw [ht2, List.get?_append hlt, hs]
          show (match c2.custom_operations.get? src.custom_operation_index with
            | none => none
            | some op => some (op.input_count, 1 - (op.input_count : Int))) = some rd
          cases ho : c.custom_operations.get? src.custom_operation_index with
          | none => rw [ho] at h; cases h
          | some op =>
              rw [ho] at h
              have hlt2 : src.custom_operation_index < c.custom_operations.length := by
                by_contra hge
                rw [List.get?_len_le (by omega)] at ho
                cases ho
              rw [ht1, List.get?_append hlt2, ho]
              exact h

theorem depth_run_ext (c c2 : simulation_code) (hext : code_ext c c2) (floor : Nat) :
    ∀ (l : List instruction) (d d2 : Nat),
      depth_run c floor l d = some d2 → depth_run c2 floor l d = some d2 := by
  intro l
  induction l with
  | nil => intro d d2 h; exact h
  | cons ins rest ih =>
      intro d d2 h
      obtain ⟨req, delta, hrd, h1, h2, h3, h4⟩ := depth_run_cons_inv _ _ _ _ _ _ h
      exact depth_run_cons_intro _ _ _ _ _ _ _ _
        (instr_req_delta_ext c c2 hext ins.type _ hrd) h1
        (le_trans h2 hext.2.2) h3 (ih _ _ h4)

theorem depth_run_le_cap (code : simulation_code) (floor : Nat) :
    ∀ (l : List instruction) (d d2 : Nat),
      depth_run code floor l d = some d2 →
      d2 = d ∨ d2 ≤ code.required_stack_size := by
  intro l
  induction l with
  | nil => intro d d2 h; left; cases h; rfl
  | cons ins rest ih =>
      intro d d2 h
      obtain ⟨req, delta, hrd, h1, h2, h3, h4⟩ := depth_run_cons_inv _ _ _ _ _ _ h
      rcases ih _ _ h4 with heq | hle
      · right; rw [heq]; exact h2
      · right; exact hle

theorem code_ext_refl (c : simulation_code) : code_ext c c :=
  ⟨⟨[], (List.append_nil _).symm⟩, ⟨[], (List.append_nil _).symm⟩, le_refl _⟩

theorem code_ext_trans {c1 c2 c3 : simulation_code} (h1 : code_ext c1 c2)
    (h2 : code_ext c2 c3) : code_ext c1 c3 := by
  obtain ⟨⟨t1, ht1⟩, ⟨t2, ht2⟩, hr⟩ := h1
  obtain ⟨⟨s1, hs1⟩, ⟨s2, hs2⟩, hr2⟩ := h2
  exact ⟨⟨t1 ++ s1, by rw [hs1, ht1, List.append_assoc]⟩,
         ⟨t2 ++ s2, by rw [hs2, ht2, List.append_assoc]⟩, le_trans hr hr2⟩

theorem add_instruction_ok (σ : compiler_state) (t : instruction_type) (ri : Nat) (δ : Int)
    (σ2 : compiler_state) (h : add_instruction σ t ri δ = .ok σ2) :
    σ2.m_code.instructions = σ.m_code.instructions ++ [⟨t, ri⟩] ∧
    σ2.m_stack_depth = σ.m_stack_depth + δ ∧
    0 ≤ σ.m_stack_depth + δ ∧
    σ2.m_code.required_stack_size =
      max σ.m_code.required_stack_size (σ.m_stack_depth + δ).toNat ∧
    σ2.m_code.custom_operations = σ.m_code.custom_operations ∧
    σ2.m_code.custom_sources = σ.m_code.custom_sources ∧
    σ2.m_code.output_count = σ.m_code.output_count := by
  unfold add_instruction at h
  by_cases hd : σ.m_stack_depth + δ < 0
  · rw [if_pos hd] at h; cases h
  · rw [if_neg hd] at h
    injection h with h2
    subst h2
    exact ⟨rfl, rfl, by omega, rfl, rfl, rfl, rfl⟩

theorem add_instruction_ext (σ : compiler_state) (t : instruction_type) (ri : Nat) (δ : Int)
    (σ2 : compiler_state) (h : add_instruction σ t ri δ = .ok σ2) :
    code_ext σ.m_code σ2.m_code := by
  obtain ⟨_, _, _, areq, aco, acs, _⟩ := add_instruction_ok _ _ _ _ _ h
  exact ⟨⟨[], by rw [aco, List.append_nil]⟩, ⟨[], by rw [acs, List.append_nil]⟩,
         by rw [areq]; exact le_max_left _ _⟩

theorem block_refl (σ : compiler_state) : block_props σ σ 0 := by
  refine ⟨[], (List.append_nil _).symm, code_ext_refl _, rfl, by simp, ?_⟩
  intro b _
  simp [depth_run]

theorem block_seq {σ σ1 σ2 : compiler_state} {k1 k2 : Nat}
    (h1 : block_props σ σ1 k1) (h2 : block_props σ1 σ2 k2) :
    block_props σ σ2 (k1 + k2) := by
  obtain ⟨bl1, hi1, he1, ho1, hd1, hr1⟩ := h1
  obtain ⟨bl2, hi2, he2, ho2, hd2, hr2⟩ := h2
  refine ⟨bl1 ++ bl2, ?_, code_ext_trans he1 he2, ho2.trans ho1, ?_, ?_⟩
  · rw [hi2, hi1, List.append_assoc]
  · rw [hd2, hd1]; push_cast; ring
  · intro b hb
    rw [depth_run_append, depth_run_ext _ _ he2 _ _ _ _ (hr1 b hb)]
    have hb1 : σ1.m_stack_depth = ((b + k1 : Nat) : Int) := by
      rw [hd1, hb]; push_cast; ring
    have r2 := depth_run_floor_mono σ2.m_code (b + k1) b (by omega) _ _ _
      (hr2 (b + k1) hb1)
    show depth_run σ2.m_code b bl2 (b + k1) = some (b + (k1 + k2))
    rw [r2, Nat.add_assoc]

theorem block_snoc {σ σ1 σ2 : compiler_state} {k k2 req : Nat} {δ : Int}
    {t : instruction_type} {ri : Nat}
    (hb : block_props σ σ1 k)
    (ha : add_instruction σ1 t ri δ = .ok σ2)
    (hrd : ∀ c, code_ext σ1.m_code c → instr_req_delta c t = some (req, δ))
    (hreq : req ≤ k) (hk2 : (k2 : Int) = (k : Int) + δ) (hk2pos : 1 ≤ k2) :
    block_props σ σ2 k2 := by
  obtain ⟨bl1, hi1, he1, ho1, hd1, hr1⟩ := hb
  obtain ⟨ai, ad, anneg, areq, aco, acs, aoc⟩ := add_instruction_ok _ _ _ _ _ ha
  have hext12 : code_ext σ1.m_code σ2.m_code := add_instruction_ext _ _ _ _ _ ha
  refine ⟨bl1 ++ [⟨t, ri⟩], ?_, code_ext_trans he1 hext12, aoc.trans ho1, ?_, ?_⟩
  · rw [ai, hi1, List.append_assoc]
  · rw [ad, hd1]; omega
  · intro b hbd
    rw [depth_run_append, depth_run_ext _ _ hext12 _ _ _ _ (hr1 b hbd)]
    show depth_run σ2.m_code b [⟨t, ri⟩] (b + k) = some (b + k2)
    have htn : (((b + k : Nat) : Int) + δ).toNat = b + k2 := by omega
    apply depth_run_cons_intro _ _ _ _ _ _ req δ (hrd σ2.m_code hext12) (by omega)
    · rw [htn, areq]
      have hσ1d : σ1.m_stack_depth + δ = ((b + k2 : Nat) : Int) := by
        rw [hd1, hbd]; omega
      rw [hσ1d]
      simp only [le_max_iff, Int.toNat_ofNat]
      omega
    · rw [htn]; omega
    · rw [htn]
      simp [depth_run]

theorem except_bind_ok {ε α β : Type} {x : Except ε α} {f : α → Except ε β} {r : β}
    (h : (x >>= f) = .ok r) : ∃ a, x = .ok a ∧ f a = .ok r := by
  cases x with
  | error e => simp [Bind.bind, Except.bind] at h
  | ok a =>
      refine ⟨a, rfl, ?_⟩
      simpa [Bind.bind, Except.bind] using h

theorem begin_some_block (σ : compiler_state) (node : graph_node) (op_id oi : Nat)
    (pfx : String) (r : Nat) (σ1 : compiler_state)
    (h : begin_operation_output σ node op_id oi pfx = .ok (some r, σ1)) :
    block_props σ σ1 0 := by
  unfold begin_operation_output at h
  by_cases hc : σ.m_incomplete_outputs.contains (op_id, oi) = true ∧ node.type_name ≠ "t"
  · rw [if_pos hc] at h; cases h
  · rw [if_neg hc] at h
    cases hl : σ.m_added_results.lookup (op_id, oi) with
    | none =>
        rw [hl] at h
        by_cases hk : σ.m_code.result_keys.length ≥ no_result_index
        · rw [if_pos hk] at h; cases h
        · rw [if_neg hk] at h
          injection h with h2
          injection h2 with h3 h4
          subst h4
          refine ⟨[], (List.append_nil _).symm, code_ext_refl _, rfl, by simp, ?_⟩
          intro b _
          simp [depth_run]
    | some r2 =>
        rw [hl] at h
        obtain ⟨σx, hax, h⟩ := except_bind_ok h
        cases h

theorem begin_none_block (σ : compiler_state) (node : graph_node) (op_id oi : Nat)
    (pfx : String) (σ1 : compiler_state)
    (h : begin_operation_output σ node op_id oi pfx = .ok (none, σ1)) :
    block_props σ σ1 1 := by
  unfold begin_operation_output at h
  by_cases hc : σ.m_incomplete_outputs.contains (op_id, oi) = true ∧ node.type_name ≠ "t"
  · rw [if_pos hc] at h; cases h
  · rw [if_neg hc] at h
    cases hl : σ.m_added_results.lookup (op_id, oi) with
    | none =>
        rw [hl] at h
        by_cases hk : σ.m_code.result_keys.length ≥ no_result_index
        · rw [if_pos hk] at h; cases h
        · rw [if_neg hk] at h; cases h
    | some r2 =>
        rw [hl] at h
        obtain ⟨σx, hax, h⟩ := except_bind_ok h
        injection h with h2
        injection h2 with h3 h4
        subst h4
        exact block_snoc (block_refl σ) hax (fun c _ => rfl) (le_refl 0) (by omega)
          (le_refl 1)

theorem end_operation_output_block {σ σ2 : compiler_state} {k : Nat} (a b : Nat)
    (h : block_props σ σ2 k) : block_props σ (end_operation_output σ2 a b) k := h

theorem try_add_custom_block (σ : compiler_state) (node : graph_node) (op_id : Nat) :
    block_props σ (try_add_custom_operation σ node op_id).2 0 := by
  unfold try_add_custom_operation
  cases hl : σ.m_added_custom_operations.lookup op_id with
  | some idx => exact block_refl σ
  | none =>
      refine ⟨[], (List.append_nil _).symm,
        ⟨⟨[⟨node.evaluate_output, node.input_count, node.output_count⟩], rfl⟩,
         ⟨[], (List.append_nil _).symm⟩, le_refl _⟩, rfl, by simp, ?_⟩
      intro b _
      simp [depth_run]

theorem add_delay_info_block (σ : compiler_state) (v : number) (r : Nat) :
    block_props σ (add_delay_info σ v r).2 0 := by
  refine ⟨[], (List.append_nil _).symm,
    ⟨⟨[], (List.append_nil _).symm⟩, ⟨[], (List.append_nil _).symm⟩, le_refl _⟩,
    rfl, by unfold add_delay_info; simp, ?_⟩
  intro b _
  simp [depth_run]

set_option maxHeartbeats 1000000

theorem emit_block (g : graph) : ∀ (fuel : Nat) (req : emit_req) (σ : compiler_state)
    (q : delay_queue) (σ2 : compiler_state) (q2 : delay_queue),
    emit g fuel req σ q = .ok (σ2, q2) →
    (match req with
     | .unary _ _ _ _ t =>
         t = .square_root ∨ t = .complex_conjugate ∨ t = .absolute
     | .binary _ _ _ _ t =>
         t = .addition ∨ t = .subtraction ∨ t = .multiplication ∨
         t = .division ∨ t = .min ∨ t = .max
     | _ => True) →
    block_props σ σ2
      (match req with
       | .custom_inputs _ i n _ _ => n - i
       | _ => 1) := by
  intro fuel
  induction fuel with
  | zero => intro req σ q σ2 q2 h _; cases h
  | succ f ih =>
      intro req σ q σ2 q2 h hwf
      cases req with
      | source op_id input_index pfx stk =>
          simp only [emit] at h
          obtain ⟨node, hn, h⟩ := except_bind_ok h
          cases hs : node.inputs.get? input_index with
          | none => rw [hs] at h; cases h
          | some sig =>
              rw [hs] at h
              obtain ⟨p1, hrec, h⟩ := except_bind_ok h
              obtain ⟨σ1, q1⟩ := p1
              have hb1 : block_props σ σ1 1 := by
                have h9 := ih (.output sig.operation sig.index pfx stk) σ q σ1 q1 hrec
                  trivial
                simpa using h9
              split at h
              · injection h with h2
                injection h2 with h3 h4
                subst h3
                exact hb1
              · split at h
                · cases h
                · obtain ⟨σx, hax, h⟩ := except_bind_ok h
                  injection h with h2
                  injection h2 with h3 h4
                  subst h3
                  have hres : block_props σ σx 1 :=
                    block_snoc hb1 hax (fun c _ => rfl) (by omega) (by omega)
                      (by omega)
                  exact hres
      | unary op_id result_index pfx stk t =>
          simp only [emit] at h
          obtain ⟨p1, hrec, h⟩ := except_bind_ok h
          obtain ⟨σ1, q1⟩ := p1
          have hb1 : block_props σ σ1 1 := by
            have h9 := ih (.source op_id 0 pfx stk) σ q σ1 q1 hrec trivial
            simpa using h9
          obtain ⟨σx, hax, h⟩ := except_bind_ok h
          injection h with h2
          injection h2 with h3 h4
          subst h3
          have hrd : ∀ c, code_ext σ1.m_code c → instr_req_delta c t = some (1, 0) := by
            rcases hwf with rfl | rfl | rfl <;> exact fun c _ => rfl
          have hres : block_props σ σx 1 :=
            block_snoc hb1 hax hrd (by omega) (by omega) (by omega)
          exact hres
      | binary op_id result_index pfx stk t =>
          simp only [emit] at h
          obtain ⟨p1, hrec1, h⟩ := except_bind_ok h
          obtain ⟨σ1, q1⟩ := p1
          have hb1 : block_props σ σ1 1 := by
            have h9 := ih (.source op_id 0 pfx stk) σ q σ1 q1 hrec1 trivial
            simpa using h9
          obtain ⟨p2, hrec2, h⟩ := except_bind_ok h
          obtain ⟨σ2a, q2a⟩ := p2
          have hb2 : block_props σ1 σ2a 1 := by
            have h9 := ih (.source op_id 1 pfx stk) σ1 q1 σ2a q2a hrec2 trivial
            simpa using h9
          obtain ⟨σx, hax, h⟩ := except_bind_ok h
          injection h with h2
          injection h2 with h3 h4
          subst h3
          have hrd : ∀ c, code_ext σ2a.m_code c → instr_req_delta c t = some (2, -1) := by
            rcases hwf with rfl | rfl | rfl | rfl | rfl | rfl <;> exact fun c _ => rfl
          have hres : block_props σ σx 1 := by
            have h9 := block_seq hb1 hb2
            exact block_snoc h9 hax hrd (by omega) (by omega) (by omega)
          exact hres
      | custom_inputs op_id i n pfx stk =>
          simp only [emit] at h
          by_cases hin : i < n
          · rw [if_pos hin] at h
            obtain ⟨p1, hrec1, h⟩ := except_bind_ok h
            obtain ⟨σ1, q1⟩ := p1
            have hb1 : block_props σ σ1 1 := by
              have h9 := ih (.source op_id i pfx stk) σ q σ1 q1 hrec1 trivial
              simpa using h9
            have hb2 : block_props σ1 σ2 (n - (i + 1)) := by
              have h9 := ih (.custom_inputs op_id (i + 1) n pfx stk) σ1 q1 σ2 q2 h trivial
              simpa using h9
            have hres : block_props σ σ2 (n - i) := by
              have h9 := block_seq hb1 hb2
              have harith : 1 + (n - (i + 1)) = n - i := by omega
              rwa [harith] at h9
            exact hres
          · rw [if_neg hin] at h
            injection h with h2
            injection h2 with h3 h4
            subst h3
            have hres : block_props σ σ (n - i) := by
              have hni : n - i = 0 := by omega
              rw [hni]
              exact block_refl σ
            exact hres
      | output op_id output_index pfx stk =>
          simp only [emit] at h
          obtain ⟨node, hn, h⟩ := except_bind_ok h
          by_cases hout : node.type_name = "out"
          · rw [if_pos hout] at h
            have h9 := ih (.source op_id 0 pfx stk) σ q σ2 q2 h trivial
            simpa using h9
          · rw [if_neg hout] at h
            obtain ⟨p1, hbegin, h⟩ := except_bind_ok h
            obtain ⟨ropt, σ1⟩ := p1
            cases ropt with
            | none =>
                injection h with h2
                injection h2 with h3 h4
                subst h3
                exact begin_none_block σ node op_id output_index pfx σ1 hbegin
            | some r =>
                have hb0 : block_props σ σ1 0 :=
                  begin_some_block σ node op_id output_index pfx r σ1 hbegin
                split at h
                · rename_i heq
                  injection heq with h1 h2
                  exact Option.noConfusion h1
                rename_i r2 s12 heq
                injection heq with e1 e2
                injection e1 with e1b
                subst e2
                subst e1b
                by_cases hc0 : node.type_name = "c"
                · rw [if_pos hc0] at h
                  obtain ⟨σx, hax, hh⟩ := except_bind_ok h
                  obtain ⟨y, hy, hh2⟩ := except_bind_ok hh
                  injection hy with hy2
                  subst hy2
                  injection hh2 with hh3
                  injection hh3 with hh4 hh5
                  subst hh4
                  apply end_operation_output_block
                  have hres : block_props σ σx 1 :=
                    block_snoc hb0 hax (fun c _ => rfl) (by omega) (by omega) (by omega)
                  exact hres
                · rw [if_neg hc0] at h
                  by_cases hc1 : node.type_name = "add"
                  · rw [if_pos hc1] at h
                    obtain ⟨y, hrec, hh⟩ := except_bind_ok h
                    obtain ⟨σy, qy⟩ := y
                    injection hh with hh3
                    injection hh3 with hh4 hh5
                    subst hh4
                    apply end_operation_output_block
                    have h9 := ih (.binary op_id r pfx stk .addition) σ1 q σy qy hrec (by left; rfl)
                    have hres : block_props σ σy 1 := by simpa using block_seq hb0 h9
                    exact hres
                  · rw [if_neg hc1] at h
                    by_cases hc2 : node.type_name = "sub"
                    · rw [if_pos hc2] at h
                      obtain ⟨y, hrec, hh⟩ := except_bind_ok h
                      obtain ⟨σy, qy⟩ := y
                      injection hh with hh3
                      injection hh3 with hh4 hh5
                      subst hh4
                      apply end_operation_output_block
                      have h9 := ih (.binary op_id r pfx stk .subtraction) σ1 q σy qy hrec (by right; left; rfl)
                      have hres : block_props σ σy 1 := by simpa using block_seq hb0 h9
                      exact hres
                    · rw [if_neg hc2] at h
                      by_cases hc3 : node.type_name = "mul"
                      · rw [if_pos hc3] at h
                        obtain ⟨y, hrec, hh⟩ := except_bind_ok h
                        obtain ⟨σy, qy⟩ := y
                        injection hh with hh3
                        injection hh3 with hh4 hh5
                        subst hh4
                        apply end_operation_output_block
                        have h9 := ih (.binary op_id r pfx stk .multiplication) σ1 q σy qy hrec (by right; right; left; rfl)
                        have hres : block_props σ σy 1 := by simpa using block_seq hb0 h9
                        exact hres
                      · rw [if_neg hc3] at h
                        by_cases hc4 : node.type_name = "div"
                        · rw [if_pos hc4] at h
                          obtain ⟨y, hrec, hh⟩ := except_bind_ok h
                          obtain ⟨σy, qy⟩ := y
                          injection hh with hh3
                          injection hh3 with hh4 hh5
                          subst hh4
                          apply end_operation_output_block
                          have h9 := ih (.binary op_id r pfx stk .division) σ1 q σy qy hrec (by right; right; right; left; rfl)
                          have hres : block_props σ σy 1 := by simpa using block_seq hb0 h9
                          exact hres
                        · rw [if_neg hc4] at h
                          by_cases hc5 : node.type_name = "min"
                          · rw [if_pos hc5] at h
                            obtain ⟨y, hrec, hh⟩ := except_bind_ok h
                            obtain ⟨σy, qy⟩ := y
                            injection hh with hh3
                            injection hh3 with hh4 hh5
                            subst hh4
                            apply end_operation_output_block
                            have h9 := ih (.binary op_id r pfx stk .min) σ1 q σy qy hrec (by right; right; right; right; left; rfl)
                            have hres : block_props σ σy 1 := by simpa using block_seq hb0 h9
                            exact hres
                          · rw [if_neg hc5] at h
                            by_cases hc6 : node.type_name = "max"
                            · rw [if_pos hc6] at h
                              obtain ⟨y, hrec, hh⟩ := except_bind_ok h
                              obtain ⟨σy, qy⟩ := y
                              injection hh with hh3
                              injection hh3 with hh4 hh5
                              subst hh4
                              apply end_operation_output_block
                              have h9 := ih (.binary op_id r pfx stk .max) σ1 q σy qy hrec (by right; right; right; right; right; rfl)
                              have hres : block_props σ σy 1 := by simpa using block_seq hb0 h9
                              exact hres
                            · rw [if_neg hc6] at h
                              by_cases hc7 : node.type_name = "sqrt"
                              · rw [if_pos hc7] at h
                                obtain ⟨y, hrec, hh⟩ := except_bind_ok h
                                obtain ⟨σy, qy⟩ := y
                                injection hh with hh3
                                injection hh3 with hh4 hh5
                                subst hh4
                                apply end_operation_output_block
                                have h9 := ih (.unary op_id r pfx stk .square_root) σ1 q σy qy hrec (by left; rfl)
                                have hres : block_props σ σy 1 := by simpa using block_seq hb0 h9
                                exact hres
                              · rw [if_neg hc7] at h
                                by_cases hc8 : node.type_name = "conj"
                                · rw [if_pos hc8] at h
                                  obtain ⟨y, hrec, hh⟩ := except_bind_ok h
                                  obtain ⟨σy, qy⟩ := y
                                  injection hh with hh3
                                  injection hh3 with hh4 hh5
                                  subst hh4
                                  apply end_operation_output_block
                                  have h9 := ih (.unary op_id r pfx stk .complex_conjugate) σ1 q σy qy hrec (by right; left; rfl)
                                  have hres : block_props σ σy 1 := by simpa using block_seq hb0 h9
                                  exact hres
                                · rw [if_neg hc8] at h
                                  by_cases hc9 : node.type_name = "abs"
                                  · rw [if_pos hc9] at h
                                    obtain ⟨y, hrec, hh⟩ := except_bind_ok h
                                    obtain ⟨σy, qy⟩ := y
                                    injection hh with hh3
                                    injection hh3 with hh4 hh5
                                    subst hh4
                                    apply end_operation_output_block
                                    have h9 := ih (.unary op_id r pfx stk .absolute) σ1 q σy qy hrec (by right; right; rfl)
                                    have hres : block_props σ σy 1 := by simpa using block_seq hb0 h9
                                    exact hres
                                  · rw [if_neg hc9] at h
                                    by_cases hc10 : node.type_name = "cmul"
                                    · rw [if_pos hc10] at h
                                      obtain ⟨y, hrec, hh⟩ := except_bind_ok h
                                      obtain ⟨σy, qy⟩ := y
                                      obtain ⟨σx, hax, hh2⟩ := except_bind_ok hh
                                      obtain ⟨y2, hy2, hh3⟩ := except_bind_ok hh2
                                      injection hy2 with hy3
                                      subst hy3
                                      injection hh3 with hh4
                                      injection hh4 with hh5 hh6
                                      subst hh5
                                      apply end_operation_output_block
                                      have h9 := ih (.source op_id 0 pfx stk) σ1 q σy qy hrec trivial
                                      have hb1 : block_props σ σy 1 := by simpa using block_seq hb0 h9
                                      have hres : block_props σ σx 1 :=
                                        block_snoc hb1 hax (fun c _ => rfl) (by omega) (by omega) (by omega)
                                      exact hres
                                    · rw [if_neg hc10] at h
                                      by_cases hc11 : node.type_name = "bfly"
                                      · rw [if_pos hc11] at h
                                        by_cases hbo : output_index = 0
                                        · rw [if_pos hbo] at h
                                          obtain ⟨y, hrec1, hh⟩ := except_bind_ok h
                                          obtain ⟨σy, qy⟩ := y
                                          obtain ⟨y2, hrec2, hh2⟩ := except_bind_ok hh
                                          obtain ⟨σz, qz⟩ := y2
                                          obtain ⟨σx, hax, hh3⟩ := except_bind_ok hh2
                                          obtain ⟨y3, hy3, hh4⟩ := except_bind_ok hh3
                                          injection hy3 with hy4
                                          subst hy4
                                          injection hh4 with hh5
                                          injection hh5 with hh6 hh7
                                          subst hh6
                                          apply end_operation_output_block
                                          have h9 := ih (.source op_id 0 pfx stk) σ1 q σy qy hrec1 trivial
                                          have h10 := ih (.source op_id 1 pfx stk) σy qy σz qz hrec2 trivial
                                          have hb2 : block_props σ σz 2 := by
                                            simpa using block_seq hb0 (block_seq h9 h10)
                                          have hres : block_props σ σx 1 :=
                                            block_snoc hb2 hax (fun c _ => rfl) (by omega) (by omega) (by omega)
                                          exact hres
                                        · rw [if_neg hbo] at h
                                          obtain ⟨y, hrec1, hh⟩ := except_bind_ok h
                                          obtain ⟨σy, qy⟩ := y
                                          obtain ⟨y2, hrec2, hh2⟩ := except_bind_ok hh
                                          obtain ⟨σz, qz⟩ := y2
                                          obtain ⟨σx, hax, hh3⟩ := except_bind_ok hh2
                                          obtain ⟨y3, hy3, hh4⟩ := except_bind_ok hh3
                                          injection hy3 with hy4
                                          subst hy4
                                          injection hh4 with hh5
                                          injection hh5 with hh6 hh7
                                          subst hh6
                                          apply end_operation_output_block
                                          have h9 := ih (.source op_id 0 pfx stk) σ1 q σy qy hrec1 trivial
                                          have h10 := ih (.source op_id 1 pfx stk) σy qy σz qz hrec2 trivial
                                          have hb2 : block_props σ σz 2 := by
                                            simpa using block_seq hb0 (block_seq h9 h10)
                                          have hres : block_props σ σx 1 :=
                                            block_snoc hb2 hax (fun c _ => rfl) (by omega) (by omega) (by omega)
                                          exact hres
                                      · rw [if_neg hc11] at h
                                        by_cases hc12 : node.type_name = "in"
                                        · rw [if_pos hc12] at h
                                          split at h
                                          · exact Except.noConfusion h
                                          · rename_i stk2 sfg_id pfx_len rest hx1 hx2
                                            obtain ⟨ii, hfi, h⟩ := except_bind_ok h
                                            split at h
                                            · -- stack depth 1: this is a top-level input
                                              obtain ⟨σx, hax, hh⟩ := except_bind_ok h
                                              obtain ⟨y, hy, hh2⟩ := except_bind_ok hh
                                              injection hy with hy2
                                              subst hy2
                                              injection hh2 with hh3
                                              injection hh3 with hh4 hh5
                                              subst hh4
                                              apply end_operation_output_block
                                              have hres : block_props σ σx 1 :=
                                                block_snoc hb0 hax (fun c _ => rfl) (by omega) (by omega) (by omega)
                                              exact hres
                                            · -- nested sfg input: recurse into the outer signal
                                              obtain ⟨y, hrec, hh⟩ := except_bind_ok h
                                              obtain ⟨σy, qy⟩ := y
                                              obtain ⟨σx, hax, hh2⟩ := except_bind_ok hh
                                              obtain ⟨y2, hy2, hh3⟩ := except_bind_ok hh2
                                              injection hy2 with hy3
                                              subst hy3
                                              injection hh3 with hh4
                                              injection hh4 with hh5 hh6
                                              subst hh5
                                              apply end_operation_output_block
                                              have h9 := ih (.source sfg_id ii (pfx.take pfx_len) rest) σ1 q σy qy hrec trivial
                                              have hb1 : block_props σ σy 1 := by simpa using block_seq hb0 h9
                                              have hres : block_props σ σx 1 :=
                                                block_snoc hb1 hax (fun c _ => rfl) (by omega) (by omega) (by omega)
                                              exact hres
                                        · rw [if_neg hc12] at h
                                          by_cases hc13 : node.type_name = "t"
                                          · rw [if_pos hc13] at h
                                            obtain ⟨σx, hax, hh⟩ := except_bind_ok h
                                            obtain ⟨y, hy, hh2⟩ := except_bind_ok hh
                                            injection hy with hy2
                                            subst hy2
                                            injection hh2 with hh3
                                            injection hh3 with hh4 hh5
                                            subst hh4
                                            apply end_operation_output_block
                                            have hbd : block_props σ1 (add_delay_info σ1 node.initial_value r).2 0 :=
                                              add_delay_info_block σ1 node.initial_value r
                                            have hb1 : block_props σ (add_delay_info σ1 node.initial_value r).2 0 := by
                                              simpa using block_seq hb0 hbd
                                            have hres : block_props σ σx 1 :=
                                              block_snoc hb1 hax (fun c _ => rfl) (by omega) (by omega) (by omega)
                                            exact hres
                                          · rw [if_neg hc13] at h
                                            by_cases hc14 : node.type_name = "sfg"
                                            · rw [if_pos hc14] at h
                                              split at h
                                              · exact Except.noConfusion h
                                              · rename_i out_op heq2
                                                obtain ⟨y, hrec, hh⟩ := except_bind_ok h
                                                obtain ⟨σy, qy⟩ := y
                                                obtain ⟨σx, hax, hh2⟩ := except_bind_ok hh
                                                obtain ⟨y2, hy2, hh3⟩ := except_bind_ok hh2
                                                injection hy2 with hy3
                                                subst hy3
                                                injection hh3 with hh4
                                                injection hh4 with hh5 hh6
                                                subst hh5
                                                apply end_operation_output_block
                                                have h9 := ih (.source out_op 0 (key_base node pfx) ((op_id, pfx.length) :: stk)) σ1 q σy qy hrec trivial
                                                have hb1 : block_props σ σy 1 := by simpa using block_seq hb0 h9
                                                have hres : block_props σ σx 1 :=
                                                  block_snoc hb1 hax (fun c _ => rfl) (by omega) (by omega) (by omega)
                                                exact hres
                                            · rw [if_neg hc14] at h
                                              split at h
                                              · exact Except.noConfusion h
                                              · rename_i xop op heq2
                                                set ci := (try_add_custom_operation σ1 node op_id).1 with hcidef
                                                set σc := (try_add_custom_operation σ1 node op_id).2 with hscdef
                                                obtain ⟨y, hci, hh⟩ := except_bind_ok h
                                                obtain ⟨σ3, q3⟩ := y
                                                obtain ⟨σx, hax, hh2⟩ := except_bind_ok hh
                                                obtain ⟨y2, hy2, hh3⟩ := except_bind_ok hh2
                                                injection hy2 with hy3
                                                subst hy3
                                                injection hh3 with hh4
                                                injection hh4 with hh5 hh6
                                                subst hh5
                                                apply end_operation_output_block
                                                have htryb : block_props σ1 σc 0 := try_add_custom_block σ1 node op_id
                                                have hcib : block_props σc σ3 op.input_count := by
                                                  have h9 := ih (.custom_inputs op_id 0 op.input_count pfx stk) σc q σ3 q3 hci
                                                    trivial
                                                  simpa using h9
                                                have hlt : ci < σc.m_code.custom_operations.length := by
                                                  by_contra hge
                                                  rw [List.get?_len_le (Nat.le_of_not_lt hge)] at heq2
                                                  exact Option.noConfusion heq2
                                                have hext9 : code_ext σc.m_code σ3.m_code := by
                                                  obtain ⟨_, _, he, _, _, _⟩ := hcib
                                                  exact he
                                                have hops3 : σ3.m_code.custom_operations.get? ci = some op := by
                                                  obtain ⟨⟨u1, hu1⟩, _, _⟩ := hext9
                                                  rw [hu1, List.get?_append hlt]
                                                  exact heq2
                                                have hlt3 : ci < σ3.m_code.custom_operations.length := by
                                                  by_contra hge
                                                  rw [List.get?_len_le (Nat.le_of_not_lt hge)] at hops3
                                                  exact Option.noConfusion hops3
                                                have hσ4b : block_props σ3 { σ3 with m_code := { σ3.m_code with
                                                    custom_sources := σ3.m_code.custom_sources ++ [⟨ci, output_index⟩] } } 0 :=
                                                  ⟨[], by simp, ⟨⟨[], by simp⟩, ⟨[⟨ci, output_index⟩], rfl⟩, le_refl _⟩, rfl,
                                                    by simp, fun b _ => by simp [depth_run]⟩
                                                have hrd : ∀ c, code_ext { σ3.m_code with
                                                    custom_sources := σ3.m_code.custom_sources ++ [⟨ci, output_index⟩] } c →
                                                    instr_req_delta c (.custom σ3.m_code.custom_sources.length) =
                                                      some (op.input_count, 1 - (op.input_count : Int)) := by
                                                  intro c hext
                                                  obtain ⟨⟨t1, ht1⟩, ⟨t2, ht2⟩, _⟩ := hext
                                                  have ht2b : c.custom_sources =
                                                      (σ3.m_code.custom_sources ++ [⟨ci, output_index⟩]) ++ t2 := ht2
                                                  have ht1b : c.custom_operations = σ3.m_code.custom_operations ++ t1 := ht1
                                                  have hcs_get : c.custom_sources.get? σ3.m_code.custom_sources.length =
                                                      some ⟨ci, output_index⟩ := by
                                                    rw [ht2b, List.get?_append (by simp), List.get?_concat_length]
                                                  have hco_get : c.custom_operations.get? ci = some op := by
                                                    rw [ht1b, List.get?_append hlt3]
                                                    exact hops3
                                                  have hred : instr_req_delta c (.custom σ3.m_code.custom_sources.length) =
                                                      (match c.custom_sources.get? σ3.m_code.custom_sources.length with
                                                       | none => none
                                                       | some src =>
                                                           match c.custom_operations.get? src.custom_operation_index with
                                                           | none => none
                                                           | some op2 => some (op2.input_count, 1 - (op2.input_count : Int))) := rfl
                                                  rw [hred, hcs_get]
                                                  show (match c.custom_operations.get? ci with
                                                       | none => none
                                                       | some op2 => some (op2.input_count, 1 - (op2.input_count : Int))) =
                                                      some (op.input_count, 1 - (op.input_count : Int))
                                                  rw [hco_get]
                                                have hb3 : block_props σ σ3 op.input_count := by
                                                  simpa using block_seq hb0 (block_seq htryb hcib)
                                                have hb4 : block_props σ { σ3 with m_code := { σ3.m_code with
                                                    custom_sources := σ3.m_code.custom_sources ++ [⟨ci, output_index⟩] } }
                                                    op.input_count := by
                                                  simpa using block_seq hb3 hσ4b
                                                have hres : block_props σ σx 1 :=
                                                  block_snoc hb4 hax hrd (le_refl _) (by omega) (by omega)
                                                exact hres

theorem add_operation_output_block (g : graph) (fuel op_id oi : Nat) (pfx : String)
    (stk : List (Nat × Nat)) (σ : compiler_state) (q : delay_queue)
    (σ2 : compiler_state) (q2 : delay_queue)
    (h : add_operation_output g fuel op_id oi pfx stk σ q = .ok (σ2, q2)) :
    block_props σ σ2 1 :=
  emit_block g fuel (.output op_id oi pfx stk) σ q σ2 q2 h trivial

theorem add_source_block (g : graph) (fuel op_id ii : Nat) (pfx : String)
    (stk : List (Nat × Nat)) (σ : compiler_state) (q : delay_queue)
    (σ2 : compiler_state) (q2 : delay_queue)
    (h : add_source g fuel op_id ii pfx stk σ q = .ok (σ2, q2)) :
    block_props σ σ2 1 :=
  emit_block g fuel (.source op_id ii pfx stk) σ q σ2 q2 h trivial

theorem add_outputs_aux_block (g : graph) (fuel root_id : Nat) :
    ∀ (count i : Nat) (σ : compiler_state) (q : delay_queue)
      (σ2 : compiler_state) (q2 : delay_queue),
      add_outputs_aux g fuel root_id count i σ q = .ok (σ2, q2) →
      block_props σ σ2 count := by
  intro count
  induction count with
  | zero =>
      intro i σ q σ2 q2 h
      injection h with h2
      injection h2 with h3 h4
      subst h3
      exact block_refl σ
  | succ c ihc =>
      intro i σ q σ2 q2 h
      simp only [add_outputs_aux] at h
      obtain ⟨p1, h1, h⟩ := except_bind_ok h
      obtain ⟨σ1, q1⟩ := p1
      have hb1 : block_props σ σ1 1 :=
        add_operation_output_block g fuel root_id i "" [] σ q σ1 q1 h1
      have hb2 : block_props σ1 σ2 c := ihc (i + 1) σ1 q1 σ2 q2 h
      have h9 := block_seq hb1 hb2
      have harith : 1 + c = c + 1 := by omega
      rwa [harith] at h9

theorem process_deferred_run (g : graph) (fuel : Nat) :
    ∀ (rest : delay_queue) (σ : compiler_state) (q : delay_queue)
      (σ2 : compiler_state) (q2 : delay_queue) (b : Nat),
      process_deferred g fuel rest σ q = .ok (σ2, q2) →
      σ.m_stack_depth = (b : Int) → 1 ≤ b →
      b ≤ σ.m_code.required_stack_size →
      ∃ bl, σ2.m_code.instructions = σ.m_code.instructions ++ bl ∧
        code_ext σ.m_code σ2.m_code ∧
        σ2.m_code.output_count = σ.m_code.output_count ∧
        σ2.m_stack_depth = σ.m_stack_depth ∧
        depth_run σ2.m_code 0 bl b = some b := by
  intro rest
  induction rest with
  | nil =>
      intro σ q σ2 q2 b h hb h1 hcap
      injection h with h2
      injection h2 with h3 h4
      subst h3
      exact ⟨[], (List.append_nil _).symm, code_ext_refl _, rfl, rfl, by simp [depth_run]⟩
  | cons rec rest ihr =>
      obtain ⟨d, op_id, pfx, stk⟩ := rec
      intro σ q σ2 q2 b h hb h1 hcap
      simp only [process_deferred] at h
      obtain ⟨p1, hsrc, h⟩ := except_bind_ok h
      obtain ⟨σ1, q1⟩ := p1
      have hb1 : block_props σ σ1 1 := add_source_block g fuel op_id 0 pfx stk σ q σ1 q1 hsrc
      obtain ⟨σu, hupd, h⟩ := except_bind_ok h
      obtain ⟨ai, ad, anneg, areq, aco, acs, aoc⟩ := add_instruction_ok _ _ _ _ _ hupd
      obtain ⟨bl1, hi1, hext1, ho1, hd1, hr1⟩ := hb1
      have hσ1d : σ1.m_stack_depth = ((b + 1 : Nat) : Int) := by
        rw [hd1, hb]; push_cast; ring
      have hσud : σu.m_stack_depth = (b : Int) := by
        rw [ad, hσ1d]; push_cast; ring
      have hextu : code_ext σ1.m_code σu.m_code := add_instruction_ext _ _ _ _ _ hupd
      have hcapu : b ≤ σu.m_code.required_stack_size := by
        have h5 : σ.m_code.required_stack_size ≤ σ1.m_code.required_stack_size := hext1.2.2
        have h6 : σ1.m_code.required_stack_size ≤ σu.m_code.required_stack_size := hextu.2.2
        omega
      obtain ⟨bl2, hi2, hext2, ho2, hd2, hr2⟩ := ihr σu q1 σ2 q2 b h hσud h1 hcapu
      have hextall : code_ext σ1.m_code σ2.m_code := code_ext_trans hextu hext2
      refine ⟨bl1 ++ ([⟨.update_delay d, no_result_index⟩] ++ bl2), ?_, ?_, ?_, ?_, ?_⟩
      · rw [hi2, ai, hi1]
        simp [List.append_assoc]
      · exact code_ext_trans hext1 hextall
      · rw [ho2, aoc, ho1]
      · rw [hd2, hσud, hb]
      · have hrun1 : depth_run σ2.m_code 0 bl1 b = some (b + 1) :=
          depth_run_floor_mono _ _ _ (Nat.zero_le b) _ _ _
            (depth_run_ext _ _ hextall _ _ _ _ (hr1 b hb))
        have hcap2 : b ≤ σ2.m_code.required_stack_size := by
          have h6 : σu.m_code.required_stack_size ≤ σ2.m_code.required_stack_size :=
            hext2.2.2
          omega
        have hstep : depth_run σ2.m_code 0 [⟨.update_delay d, no_result_index⟩] (b + 1) =
            some b := by
          apply depth_run_cons_intro σ2.m_code 0 ⟨.update_delay d, no_result_index⟩ []
            (b + 1) b 1 (-1) rfl
          · omega
          · have he : (((b + 1 : Nat) : Int) + (-1)).toNat = b := by omega
            rw [he]; exact hcap2
          · have he : (((b + 1 : Nat) : Int) + (-1)).toNat = b := by omega
            rw [he]; omega
          · have he : (((b + 1 : Nat) : Int) + (-1)).toNat = b := by omega
            rw [he]; rfl
        rw [depth_run_append, hrun1]
        show (depth_run σ2.m_code 0 ([⟨.update_delay d, no_result_index⟩] ++ bl2) (b + 1))
          = some b
        rw [depth_run_append, hstep]
        exact hr2

theorem add_deferred_delays_run (g : graph) (fuel : Nat) (q : delay_queue)
    (σ σ2 : compiler_state) (b : Nat)
    (h : add_deferred_delays g fuel q σ = .ok σ2)
    (hb : σ.m_stack_depth = (b : Int))
    (hcap : b ≤ σ.m_code.required_stack_size)
    (hq1 : q ≠ [] → 1 ≤ b) :
    ∃ bl, σ2.m_code.instructions = σ.m_code.instructions ++ bl ∧
      code_ext σ.m_code σ2.m_code ∧
      σ2.m_code.output_count = σ.m_code.output_count ∧
      σ2.m_stack_depth = σ.m_stack_depth ∧
      depth_run σ2.m_code 0 bl b = some b := by
  unfold add_deferred_delays at h
  by_cases hq : q.isEmpty
  · rw [if_pos hq] at h
    injection h with h2
    subst h2
    exact ⟨[], (List.append_nil _).symm, code_ext_refl _, rfl, rfl, by simp [depth_run]⟩
  · rw [if_neg hq] at h
    obtain ⟨p1, hp, h⟩ := except_bind_ok h
    obtain ⟨σ1, qx⟩ := p1
    injection h with h2
    subst h2
    have hne : q ≠ [] := by
      intro he
      subst he
      simp at hq
    exact process_deferred_run g fuel q σ q σ1 qx b hp hb (hq1 hne) hcap

theorem instr_req_delta_congr (c c2 : simulation_code)
    (hco : c2.custom_operations = c.custom_operations)
    (hcs : c2.custom_sources = c.custom_sources) (t : instruction_type) :
    instr_req_delta c2 t = instr_req_delta c t := by
  cases t with
  | custom i => rw [instr_req_delta_custom, instr_req_delta_custom, hco, hcs]
  | _ => rfl

theorem depth_run_map_type (c c2 : simulation_code)
    (hco : c2.custom_operations = c.custom_operations)
    (hcs : c2.custom_sources = c.custom_sources)
    (hrq : c2.required_stack_size = c.required_stack_size)
    (f : instruction → instruction) (hf : ∀ i, (f i).type = i.type) (floor : Nat) :
    ∀ (l : List instruction) (d d2 : Nat),
      depth_run c floor l d = some d2 → depth_run c2 floor (l.map f) d = some d2 := by
  intro l
  induction l with
  | nil => intro d d2 h; exact h
  | cons ins rest ih =>
      intro d d2 h
      obtain ⟨req, delta, hrd, h1, h2, h3, h4⟩ := depth_run_cons_inv _ _ _ _ _ _ h
      rw [List.map_cons]
      apply depth_run_cons_intro c2 floor (f ins) (rest.map f) d d2 req delta
      · rw [hf, instr_req_delta_congr c c2 hco hcs]
        exact hrd
      · exact h1
      · rw [hrq]; exact h2
      · exact h3
      · exact ih _ _ h4

theorem compile_depth (g : graph) (fuel : Nat) (code : simulation_code)
    (h : compile_simulation g fuel = .ok code) :
    depth_run code 0 code.instructions 0 = some code.output_count ∧
    code.output_count ≤ code.required_stack_size := by
  unfold compile_simulation at h
  obtain ⟨root, hroot, h⟩ := except_bind_ok h
  obtain ⟨p1, hout, h⟩ := except_bind_ok h
  obtain ⟨σ1, q⟩ := p1
  obtain ⟨σ2, hdef, h⟩ := except_bind_ok h
  injection h with h2
  subst h2
  have hb1 := add_outputs_aux_block g fuel g.root root.output_count 0 _ [] σ1 q hout
  obtain ⟨bl, hi1, hext1, ho1, hd1, hr1⟩ := hb1
  have hrun1 : depth_run σ1.m_code 0 bl 0 = some root.output_count := by
    have h9 := hr1 0 rfl
    simpa using h9
  have hBcap : root.output_count = 0 ∨ root.output_count ≤ σ1.m_code.required_stack_size :=
    depth_run_le_cap _ _ _ _ _ hrun1
  have hq1 : q ≠ [] → 1 ≤ root.output_count := by
    intro hne
    by_contra hlt
    have hz : root.output_count = 0 := by omega
    rw [hz] at hout
    injection hout with h3
    injection h3 with h4 h5
    exact hne h5.symm
  have hcap1 : root.output_count ≤ σ1.m_code.required_stack_size := by
    rcases hBcap with hz | hle
    · rw [hz]; omega
    · exact hle
  have hd1' : σ1.m_stack_depth = ((root.output_count : Nat) : Int) := by
    rw [hd1]; simp
  obtain ⟨bl2, hi2, hext2, ho2, hd2, hr2⟩ :=
    add_deferred_delays_run g fuel q σ1 σ2 root.output_count hdef hd1' hcap1 hq1
  have hins2 : σ2.m_code.instructions = bl ++ bl2 := by
    rw [hi2, hi1]; simp
  have hrunfull : depth_run σ2.m_code 0 (bl ++ bl2) 0 = some root.output_count := by
    rw [depth_run_append, depth_run_ext _ _ hext2 _ _ _ _ hrun1]
    exact hr2
  have hco : (resolve_invalid_result_indices σ2).m_code.custom_operations =
      σ2.m_code.custom_operations := rfl
  have hcs : (resolve_invalid_result_indices σ2).m_code.custom_sources =
      σ2.m_code.custom_sources := rfl
  have hrq : (resolve_invalid_result_indices σ2).m_code.required_stack_size =
      σ2.m_code.required_stack_size := rfl
  have hoc : (resolve_invalid_result_indices σ2).m_code.output_count =
      σ2.m_code.output_count := rfl
  have hinsr : (resolve_invalid_result_indices σ2).m_code.instructions =
      σ2.m_code.instructions.map (fun ins =>
        if ins.result_index = no_result_index then
          ⟨ins.type, σ2.m_code.result_keys.length⟩
        else ins) := rfl
  have hocval : (resolve_invalid_result_indices σ2).m_code.output_count =
      root.output_count := by
    rw [hoc, ho2, ho1]
  constructor
  · rw [hinsr, hins2, hocval]
    apply depth_run_map_type σ2.m_code _ hco hcs hrq _ _ 0 _ _
      _ hrunfull
    intro i
    dsimp only
    split <;> rfl
  · rw [hocval, hrq]
    have h6 : σ1.m_code.required_stack_size ≤ σ2.m_code.required_stack_size := hext2.2.2
    omega

theorem stack_pop_n_ok : ∀ (n : Nat) (st : interp_state), n ≤ st.stack.length →
    ∃ vs st2, stack_pop_n n st = .ok (vs, st2) ∧
      st2.stack = st.stack.drop n ∧ st2.results = st.results ∧ st2.delays = st.delays := by
  intro n
  induction n with
  | zero =>
      intro st h
      exact ⟨[], st, rfl, by simp, rfl, rfl⟩
  | succ m ihm =>
      intro st h
      cases hs : st.stack with
      | nil => rw [hs] at h; simp at h
      | cons v rest =>
          have hle : m ≤ rest.length := by
            rw [hs] at h
            simpa using h
          obtain ⟨vs, st2, hrun, hstk, hres, hdel⟩ :=
            ihm { st with stack := rest } (by simpa using hle)
          have hpop : stack_pop st = .ok (v, { st with stack := rest }) := by
            simp [stack_pop, hs]
          refine ⟨v :: vs, st2, ?_, ?_, hres, hdel⟩
          · simp only [stack_pop_n, hpop, hrun, Except.bind, Bind.bind]
          · simp [hstk, hs]

theorem except_bind_error {ε α β : Type} (e : ε) (f : α → Except ε β) :
    (Except.error e >>= f : Except ε β) = Except.error e := rfl

theorem except_bind_ok_eq {ε α β : Type} (a : α) (f : α → Except ε β) :
    (Except.ok a >>= f : Except ε β) = f a := rfl

theorem execute_opcode_spec (eops : extra_ops) (code : simulation_code)
    (inputs : List number) (truncate : Bool) (ins : instruction) (st : interp_state)
    (req : Nat) (δ : Int)
    (hrd : instr_req_delta code ins.type = some (req, δ))
    (hreq : req ≤ st.stack.length)
    (hcap : ((st.stack.length : Int) + δ).toNat ≤ code.required_stack_size) :
    (match execute_opcode eops code inputs truncate ins st with
     | .error e => e ≠ .stack_overflow ∧ e ≠ .stack_underflow ∧ e ≠ .empty_peek
     | .ok st2 => st2.stack.length = ((st.stack.length : Int) + δ).toNat) := by
  obtain ⟨t, ri⟩ := ins
  cases t with
  | push_input i =>
      have hrd2 : (some ((0 : Nat), (1 : Int)) : Option (Nat × Int)) = some (req, δ) := hrd
      injection hrd2 with h5
      injection h5 with h6 h7
      subst h6; subst h7
      cases hri : inputs[i]? with
      | none => simp [execute_opcode, except_bind_error, except_bind_ok_eq, read_at, hri]
      | some v =>
          have hlt : st.stack.length < code.required_stack_size := by omega
          simp [execute_opcode, except_bind_error, except_bind_ok_eq, read_at, hri, stack_push, hlt]
          try omega
  | push_result i =>
      have hrd2 : (some ((0 : Nat), (1 : Int)) : Option (Nat × Int)) = some (req, δ) := hrd
      injection hrd2 with h5
      injection h5 with h6 h7
      subst h6; subst h7
      cases hri : st.results[i]? with
      | none => simp [execute_opcode, except_bind_error, except_bind_ok_eq, read_at, hri]
      | some v =>
          have hlt : st.stack.length < code.required_stack_size := by omega
          simp [execute_opcode, except_bind_error, except_bind_ok_eq, read_at, hri, stack_push, hlt]
          try omega
  | push_delay i =>
      have hrd2 : (some ((0 : Nat), (1 : Int)) : Option (Nat × Int)) = some (req, δ) := hrd
      injection hrd2 with h5
      injection h5 with h6 h7
      subst h6; subst h7
      cases hri : st.delays[i]? with
      | none => simp [execute_opcode, except_bind_error, except_bind_ok_eq, read_at, hri]
      | some v =>
          have hlt : st.stack.length < code.required_stack_size := by omega
          simp [execute_opcode, except_bind_error, except_bind_ok_eq, read_at, hri, stack_push, hlt]
          try omega
  | push_constant v =>
      have hrd2 : (some ((0 : Nat), (1 : Int)) : Option (Nat × Int)) = some (req, δ) := hrd
      injection hrd2 with h5
      injection h5 with h6 h7
      subst h6; subst h7
      have hlt : st.stack.length < code.required_stack_size := by omega
      simp [execute_opcode, except_bind_error, except_bind_ok_eq, stack_push, hlt]
      try omega
  | quantize mask =>
      have hrd2 : (some ((1 : Nat), (0 : Int)) : Option (Nat × Int)) = some (req, δ) := hrd
      injection hrd2 with h5
      injection h5 with h6 h7
      subst h6; subst h7
      by_cases ht : truncate
      · cases hs : st.stack with
        | nil => rw [hs] at hreq; simp at hreq
        | cons v rest =>
            have hlen : st.stack.length = rest.length + 1 := by rw [hs]; rfl
            by_cases him : rat.isNonZero v.im
            · simp [execute_opcode, except_bind_error, except_bind_ok_eq, ht, stack_pop, hs, truncate_value, him]
            · have hlt : rest.length < code.required_stack_size := by omega
              simp [execute_opcode, except_bind_error, except_bind_ok_eq, ht, stack_pop, hs, truncate_value, him, stack_push, hlt]
              try omega
      · simp [execute_opcode, except_bind_error, except_bind_ok_eq, ht]
        try omega
  | addition =>
      have hrd2 : (some ((2 : Nat), (-1 : Int)) : Option (Nat × Int)) = some (req, δ) := hrd
      injection hrd2 with h5
      injection h5 with h6 h7
      subst h6; subst h7
      cases hs : st.stack with
      | nil => rw [hs] at hreq; simp at hreq
      | cons a rest1 =>
          cases rest1 with
          | nil => rw [hs] at hreq; simp at hreq
          | cons b rest =>
              have hlen : st.stack.length = rest.length + 2 := by rw [hs]; rfl
              have hlt : rest.length < code.required_stack_size := by omega
              simp [execute_opcode, except_bind_error, except_bind_ok_eq, stack_pop, hs, stack_push, hlt]
              try omega
  | subtraction =>
      have hrd2 : (some ((2 : Nat), (-1 : Int)) : Option (Nat × Int)) = some (req, δ) := hrd
      injection hrd2 with h5
      injection h5 with h6 h7
      subst h6; subst h7
      cases hs : st.stack with
      | nil => rw [hs] at hreq; simp at hreq
      | cons a rest1 =>
          cases rest1 with
          | nil => rw [hs] at hreq; simp at hreq
          | cons b rest =>
              have hlen : st.stack.length = rest.length + 2 := by rw [hs]; rfl
              have hlt : rest.length < code.required_stack_size := by omega
              simp [execute_opcode, except_bind_error, except_bind_ok_eq, stack_pop, hs, stack_push, hlt]
              try omega
  | multiplication =>
      have hrd2 : (some ((2 : Nat), (-1 : Int)) : Option (Nat × Int)) = some (req, δ) := hrd
      injection hrd2 with h5
      injection h5 with h6 h7
      subst h6; subst h7
      cases hs : st.stack with
      | nil => rw [hs] at hreq; simp at hreq
      | cons a rest1 =>
          cases rest1 with
          | nil => rw [hs] at hreq; simp at hreq
          | cons b rest =>
              have hlen : st.stack.length = rest.length + 2 := by rw [hs]; rfl
              have hlt : rest.length < code.required_stack_size := by omega
              simp [execute_opcode, except_bind_error, except_bind_ok_eq, stack_pop, hs, stack_push, hlt]
              try omega
  | division =>
      have hrd2 : (some ((2 : Nat), (-1 : Int)) : Option (Nat × Int)) = some (req, δ) := hrd
      injection hrd2 with h5
      injection h5 with h6 h7
      subst h6; subst h7
      cases hs : st.stack with
      | nil => rw [hs] at hreq; simp at hreq
      | cons a rest1 =>
          cases rest1 with
          | nil => rw [hs] at hreq; simp at hreq
          | cons b rest =>
              have hlen : st.stack.length = rest.length + 2 := by rw [hs]; rfl
              have hlt : rest.length < code.required_stack_size := by omega
              simp [execute_opcode, except_bind_error, except_bind_ok_eq, stack_pop, hs, stack_push, hlt]
              try omega
  | min =>
      have hrd2 : (some ((2 : Nat), (-1 : Int)) : Option (Nat × Int)) = some (req, δ) := hrd
      injection hrd2 with h5
      injection h5 with h6 h7
      subst h6; subst h7
      cases hs : st.stack with
      | nil => rw [hs] at hreq; simp at hreq
      | cons a rest1 =>
          cases rest1 with
          | nil => rw [hs] at hreq; simp at hreq
          | cons b rest =>
              have hlen : st.stack.length = rest.length + 2 := by rw [hs]; rfl
              by_cases hc : b.im.isNonZero = true ∨ a.im.isNonZero = true
              · simp [execute_opcode, except_bind_error, except_bind_ok_eq, stack_pop, hs, hc]
              · have hlt : rest.length < code.required_stack_size := by omega
                simp [execute_opcode, except_bind_error, except_bind_ok_eq, stack_pop, hs, hc, stack_push, hlt]
                try omega
  | max =>
      have hrd2 : (some ((2 : Nat), (-1 : Int)) : Option (Nat × Int)) = some (req, δ) := hrd
      injection hrd2 with h5
      injection h5 with h6 h7
      subst h6; subst h7
      cases hs : st.stack with
      | nil => rw [hs] at hreq; simp at hreq
      | cons a rest1 =>
          cases rest1 with
          | nil => rw [hs] at hreq; simp at hreq
          | cons b rest =>
              have hlen : st.stack.length = rest.length + 2 := by rw [hs]; rfl
              by_cases hc : b.im.isNonZero = true ∨ a.im.isNonZero = true
              · simp [execute_opcode, except_bind_error, except_bind_ok_eq, stack_pop, hs, hc]
              · have hlt : rest.length < code.required_stack_size := by omega
                simp [execute_opcode, except_bind_error, except_bind_ok_eq, stack_pop, hs, hc, stack_push, hlt]
                try omega
  | square_root =>
      have hrd2 : (some ((1 : Nat), (0 : Int)) : Option (Nat × Int)) = some (req, δ) := hrd
      injection hrd2 with h5
      injection h5 with h6 h7
      subst h6; subst h7
      cases hs : st.stack with
      | nil => rw [hs] at hreq; simp at hreq
      | cons v rest =>
          have hlen : st.stack.length = rest.length + 1 := by rw [hs]; rfl
          have hlt : rest.length < code.required_stack_size := by omega
          simp [execute_opcode, except_bind_error, except_bind_ok_eq, stack_pop, hs, stack_push, hlt]
          try omega
  | complex_conjugate =>
      have hrd2 : (some ((1 : Nat), (0 : Int)) : Option (Nat × Int)) = some (req, δ) := hrd
      injection hrd2 with h5
      injection h5 with h6 h7
      subst h6; subst h7
      cases hs : st.stack with
      | nil => rw [hs] at hreq; simp at hreq
      | cons v rest =>
          have hlen : st.stack.length = rest.length + 1 := by rw [hs]; rfl
          have hlt : rest.length < code.required_stack_size := by omega
          simp [execute_opcode, except_bind_error, except_bind_ok_eq, stack_pop, hs, stack_push, hlt]
          try omega
  | absolute =>
      have hrd2 : (some ((1 : Nat), (0 : Int)) : Option (Nat × Int)) = some (req, δ) := hrd
      injection hrd2 with h5
      injection h5 with h6 h7
      subst h6; subst h7
      cases hs : st.stack with
      | nil => rw [hs] at hreq; simp at hreq
      | cons v rest =>
          have hlen : st.stack.length = rest.length + 1 := by rw [hs]; rfl
          have hlt : rest.length < code.required_stack_size := by omega
          simp [execute_opcode, except_bind_error, except_bind_ok_eq, stack_pop, hs, stack_push, hlt]
          try omega
  | constant_multiplication cv =>
      have hrd2 : (some ((1 : Nat), (0 : Int)) : Option (Nat × Int)) = some (req, δ) := hrd
      injection hrd2 with h5
      injection h5 with h6 h7
      subst h6; subst h7
      cases hs : st.stack with
      | nil => rw [hs] at hreq; simp at hreq
      | cons v rest =>
          have hlen : st.stack.length = rest.length + 1 := by rw [hs]; rfl
          have hlt : rest.length < code.required_stack_size := by omega
          simp [execute_opcode, except_bind_error, except_bind_ok_eq, stack_pop, hs, stack_push, hlt]
          try omega
  | update_delay i =>
      have hrd2 : (some ((1 : Nat), (-1 : Int)) : Option (Nat × Int)) = some (req, δ) := hrd
      injection hrd2 with h5
      injection h5 with h6 h7
      subst h6; subst h7
      cases hs : st.stack with
      | nil => rw [hs] at hreq; simp at hreq
      | cons v rest =>
          have hlen : st.stack.length = rest.length + 1 := by rw [hs]; rfl
          by_cases hw : i < st.delays.length
          · simp [execute_opcode, except_bind_error, except_bind_ok_eq, stack_pop, hs, write_at, hw]
            try omega
          · simp [execute_opcode, except_bind_error, except_bind_ok_eq, stack_pop, hs, write_at, hw]
  | custom i =>
      replace hrd : (match code.custom_sources.get? i with
        | none => none
        | some src =>
            match code.custom_operations.get? src.custom_operation_index with
            | none => none
            | some op => some (op.input_count, 1 - (op.input_count : Int))) =
          some (req, δ) := hrd
      cases hsrc : code.custom_sources.get? i with
      | none =>
          rw [hsrc] at hrd
          replace hrd : (none : Option (Nat × Int)) = some (req, δ) := hrd
          exact Option.noConfusion hrd
      | some src =>
          rw [hsrc] at hrd
          replace hrd : (match code.custom_operations.get? src.custom_operation_index with
            | none => none
            | some op => some (op.input_count, 1 - (op.input_count : Int))) =
              some (req, δ) := hrd
          cases hop : code.custom_operations.get? src.custom_operation_index with
          | none =>
              rw [hop] at hrd
              replace hrd : (none : Option (Nat × Int)) = some (req, δ) := hrd
              exact Option.noConfusion hrd
          | some op =>
              rw [hop] at hrd
              replace hrd : some (op.input_count, 1 - (op.input_count : Int)) =
                some (req, δ) := hrd
              injection hrd with h5
              injection h5 with h6 h7
              subst h6; subst h7
              obtain ⟨vs, st1, hrun, hstk, hres, hdel⟩ := stack_pop_n_ok op.input_count st hreq
              have hlen1 : st1.stack.length = st.stack.length - op.input_count := by
                rw [hstk]; simp
              have hlt : st1.stack.length < code.required_stack_size := by omega
              have hsrc2 : code.custom_sources[i]? = some src := by
                rw [← List.get?_eq_getElem?]; exact hsrc
              have hop2 : code.custom_operations[src.custom_operation_index]? = some op := by
                rw [← List.get?_eq_getElem?]; exact hop
              simp [execute_opcode, except_bind_error, except_bind_ok_eq, read_at, hsrc2, hop2, hrun, stack_push, hlt]
              try omega
  | forward_value =>
      have hrd2 : (some ((0 : Nat), (0 : Int)) : Option (Nat × Int)) = some (req, δ) := hrd
      injection hrd2 with h5
      injection h5 with h6 h7
      subst h6; subst h7
      simp [execute_opcode, except_bind_error, except_bind_ok_eq, except_bind_error, except_bind_ok_eq]
      try omega

theorem execute_instruction_spec (eops : extra_ops) (code : simulation_code)
    (inputs : List number) (truncate : Bool) (mo : Option Int) (ins : instruction)
    (st : interp_state) (req : Nat) (δ : Int)
    (hrd : instr_req_delta code ins.type = some (req, δ))
    (hreq : req ≤ st.stack.length)
    (hcap : ((st.stack.length : Int) + δ).toNat ≤ code.required_stack_size)
    (hpos : 1 ≤ ((st.stack.length : Int) + δ).toNat) :
    (match execute_instruction eops code inputs truncate mo ins st with
     | .error e => e ≠ .stack_overflow ∧ e ≠ .stack_underflow ∧ e ≠ .empty_peek
     | .ok st2 => st2.stack.length = ((st.stack.length : Int) + δ).toNat) := by
  have hop := execute_opcode_spec eops code inputs truncate ins st req δ hrd hreq hcap
  cases hev : execute_opcode eops code inputs truncate ins st with
  | error e =>
      rw [hev] at hop
      replace hop : e ≠ .stack_overflow ∧ e ≠ .stack_underflow ∧ e ≠ .empty_peek := hop
      have hred : execute_instruction eops code inputs truncate mo ins st = .error e := by
        simp [execute_instruction, hev, except_bind_error]
      rw [hred]
      exact hop
  | ok st1 =>
      rw [hev] at hop
      replace hop : st1.stack.length = ((st.stack.length : Int) + δ).toNat := hop
      cases hs1 : st1.stack with
      | nil =>
          rw [hs1] at hop
          simp at hop
          omega
      | cons v rest =>
          have hlen1 : st1.stack.length = rest.length + 1 := by rw [hs1]; rfl
          cases mo with
          | none =>
              by_cases hw : ins.result_index < st1.results.length
              · simp [execute_instruction, hev, except_bind_ok_eq, except_bind_error,
                  stack_peek, hs1, write_at, hw]
                omega
              · simp [execute_instruction, hev, except_bind_ok_eq, except_bind_error,
                  stack_peek, hs1, write_at, hw]
          | some m =>
              by_cases him : rat.isNonZero v.im
              · simp [execute_instruction, hev, except_bind_ok_eq, except_bind_error,
                  stack_pop, hs1, truncate_value, him]
              · have hlt : rest.length < code.required_stack_size := by omega
                by_cases hw : ins.result_index < st1.results.length
                · simp [execute_instruction, hev, except_bind_ok_eq, except_bind_error,
                    stack_pop, hs1, truncate_value, him, stack_push, hlt, stack_peek,
                    write_at, hw]
                  omega
                · simp [execute_instruction, hev, except_bind_ok_eq, except_bind_error,
                    stack_pop, hs1, truncate_value, him, stack_push, hlt, stack_peek,
                    write_at, hw]

theorem execute_instructions_spec (eops : extra_ops) (code : simulation_code)
    (inputs : List number) (truncate : Bool) (mo : Option Int) :
    ∀ (l : List instruction) (st : interp_state) (dfin : Nat),
      depth_run code 0 l st.stack.length = some dfin →
      (match execute_instructions eops code inputs truncate mo l st with
       | .error e => e ≠ .stack_overflow ∧ e ≠ .stack_underflow ∧ e ≠ .empty_peek
       | .ok st2 => st2.stack.length = dfin) := by
  intro l
  induction l with
  | nil =>
      intro st dfin h
      replace h : (some st.stack.length : Option Nat) = some dfin := h
      have h2 : st.stack.length = dfin := Option.some.inj h
      show st.stack.length = dfin
      exact h2
  | cons ins rest ih =>
      intro st dfin h
      obtain ⟨req, delta, hrd, h1, h2, h3, h4⟩ := depth_run_cons_inv _ _ _ _ _ _ h
      have hstep := execute_instruction_spec eops code inputs truncate mo ins st req delta
        hrd h1 h2 (by omega)
      cases hev : execute_instruction eops code inputs truncate mo ins st with
      | error e =>
          rw [hev] at hstep
          replace hstep : e ≠ .stack_overflow ∧ e ≠ .stack_underflow ∧ e ≠ .empty_peek :=
            hstep
          have hred : execute_instructions eops code inputs truncate mo (ins :: rest) st =
              .error e := by
            simp [execute_instructions, hev, except_bind_error]
          rw [hred]
          exact hstep
      | ok st1 =>
          rw [hev] at hstep
          replace hstep : st1.stack.length = ((st.stack.length : Int) + delta).toNat := hstep
          have h4b : depth_run code 0 rest st1.stack.length = some dfin := by
            rw [hstep]; exact h4
          have hrec := ih st1 dfin h4b
          have hred : execute_instructions eops code inputs truncate mo (ins :: rest) st =
              execute_instructions eops code inputs truncate mo rest st1 := by
            simp [execute_instructions, hev, except_bind_ok_eq]
          rw [hred]
          exact hrec

theorem init_delay_results_error :
    ∀ (ds : List delay_info) (del rs : List number) (e : run_error),
      init_delay_results ds del rs = .error e → e = .index_out_of_range := by
  intro ds
  induction ds with
  | nil => intro del rs e h; exact Except.noConfusion h
  | cons d rest ih =>
      intro del rs e h
      simp only [init_delay_results] at h
      cases hrv : del[0]? with
      | none =>
          simp [read_at, hrv, except_bind_error, except_bind_ok_eq] at h
          exact h.symm
      | some v =>
          simp only [read_at, List.get?_eq_getElem?, hrv, except_bind_error,
            except_bind_ok_eq] at h
          by_cases hw : d.result_index < rs.length
          · simp only [write_at, if_pos hw, except_bind_error, except_bind_ok_eq] at h
            exact ih _ _ _ h
          · simp only [write_at, if_neg hw, except_bind_error, except_bind_ok_eq] at h
            injection h with h2
            exact h2.symm

theorem setup_truncation_error (truncate : Bool) (bo : Option Nat) (e : run_error)
    (h : setup_truncation_parameters truncate bo = .error e) :
    e = .quantization_too_wide := by
  unfold setup_truncation_parameters at h
  cases bo with
  | none => exact Except.noConfusion h
  | some b =>
      replace h : (if truncate = true then
          (if b > 64 then (.error .quantization_too_wide : Except run_error (Bool × Option Int))
           else .ok (false, some ((1 <<< (b : Int)) - 1)))
        else .ok (truncate, none)) = .error e := h
      by_cases ht : truncate = true
      · rw [if_pos ht] at h
        by_cases hb : b > 64
        · rw [if_pos hb] at h
          injection h with h2
          exact h2.symm
        · rw [if_neg hb] at h
          exact Except.noConfusion h
      · rw [if_neg ht] at h
        exact Except.noConfusion h

theorem run_simulation_spec (eops : extra_ops) (code : simulation_code)
    (inputs delays : List number) (bits : Option Nat) (truncate : Bool)
    (hdr : depth_run code 0 code.instructions 0 = some code.output_count) :
    (match run_simulation eops code inputs delays bits truncate with
     | .error e => e ≠ .stack_overflow ∧ e ≠ .stack_underflow ∧ e ≠ .empty_peek
     | .ok res => res.1.stack.length = code.output_count) := by
  by_cases h1 : inputs.length = code.input_count
  case neg => simp [run_simulation, h1]
  by_cases h2 : delays.length = code.delays.length
  case neg => simp [run_simulation, h1, h2]
  by_cases h3 : code.output_count ≤ code.required_stack_size
  case neg => simp [run_simulation, h1, h2, h3]
  cases hinit : init_delay_results code.delays delays
      (List.replicate (code.result_keys.length + 1) number.zero) with
  | error e =>
      have he := init_delay_results_error _ _ _ _ hinit
      subst he
      simp [run_simulation, h1, h2, h3, hinit, except_bind_error, except_bind_ok_eq]
  | ok results1 =>
      cases hsetup : setup_truncation_parameters truncate bits with
      | error e =>
          have he := setup_truncation_error _ _ _ hsetup
          subst he
          simp [run_simulation, h1, h2, h3, hinit, hsetup, except_bind_error,
            except_bind_ok_eq]
      | ok tp =>
          obtain ⟨truncate2, mo⟩ := tp
          have hexec := execute_instructions_spec eops code inputs truncate2 mo
            code.instructions ⟨[], results1, delays⟩ code.output_count hdr
          cases hev : execute_instructions eops code inputs truncate2 mo
              code.instructions ⟨[], results1, delays⟩ with
          | error e =>
              rw [hev] at hexec
              replace hexec : e ≠ .stack_overflow ∧ e ≠ .stack_underflow ∧
                  e ≠ .empty_peek := hexec
              have hred : run_simulation eops code inputs delays bits truncate =
                  .error e := by
                simp [run_simulation, h1, h2, h3, hinit, hsetup, hev,
                  except_bind_error, except_bind_ok_eq]
              rw [hred]
              exact hexec
          | ok stf =>
              rw [hev] at hexec
              replace hexec : stf.stack.length = code.output_count := hexec
              have hred : run_simulation eops code inputs delays bits truncate =
                  .ok (⟨(stf.stack.reverse).take code.output_count,
                        stf.results.dropLast⟩, stf.delays) := by
                simp [run_simulation, h1, h2, h3, hinit, hsetup, hev,
                  except_bind_error, except_bind_ok_eq]
              rw [hred]
              show ((stf.stack.reverse).take code.output_count).length = code.output_count
              rw [List.length_take, List.length_reverse, hexec]
              omega

/-! ## The claims -/

/-- C1: for every two-operand instruction (Add, Sub, Mul, Div, Min, Max) the
interpreter pops the right operand first and the left operand second and
pushes `lhs ⊕ rhs`, where `lhs` is the operand that was pushed first (on the
stack `rhs :: lhs :: rest` the head is the last value pushed); in particular
Sub pushes `lhs − rhs` and Div pushes `lhs / rhs`.  The compiler emits
source 0 (the constant 3) and then source 1 (the constant 4) for the
butterfly, whose step returns the outputs `[7, −1]` with result keys
`bfly1.0 = 7` and `bfly1.1 = −1`. -/
theorem claim_C1 :
    (∀ t, t ∈ [instruction_type.addition, .subtraction, .multiplication,
        .division, .min, .max] →
      ∀ (eops : extra_ops) (code : simulation_code) (inputs : List number) (ri : Nat)
        (lhs rhs : number) (rest res ds : List number),
        rest.length + 1 < code.required_stack_size →
        execute_opcode eops code inputs true ⟨t, ri⟩ ⟨rhs :: lhs :: rest, res, ds⟩ =
          (binary_result t lhs rhs).bind (fun v => .ok ⟨v :: rest, res, ds⟩)) ∧
    (∀ lhs rhs, binary_result .subtraction lhs rhs = .ok (number.sub lhs rhs)) ∧
    (∀ lhs rhs, binary_result .division lhs rhs = .ok (number.div lhs rhs)) ∧
    bfly_code.instructions =
      [⟨.push_constant (number.ofInt 3), 2⟩, ⟨.push_constant (number.ofInt 4), 3⟩,
       ⟨.addition, 1⟩, ⟨.forward_value, 0⟩,
       ⟨.push_result 2, 2⟩, ⟨.push_result 3, 3⟩, ⟨.subtraction, 5⟩, ⟨.forward_value, 4⟩] ∧
    (sim_step trivial_ops (simulation_of_code bfly_code) true none true).2 =
      .ok [number.ofInt 7, number.ofInt (-1)] ∧
    (sim_results (sim_step trivial_ops (simulation_of_code bfly_code) true none true).1).lookup
      "bfly1.0" = some [number.ofInt 7] ∧
    (sim_results (sim_step trivial_ops (simulation_of_code bfly_code) true none true).1).lookup
      "bfly1.1" = some [number.ofInt (-1)] :=
  ⟨binary_exec, fun _ _ => rfl, fun _ _ => rfl, by decide, by decide, by decide, by decide⟩

/-- Witness for C1: Sub at a concrete stack where 3 was pushed first and 4
second computes `3 − 4 = −1`. -/
theorem claim_C1_witness :
    execute_opcode trivial_ops bfly_code [] true ⟨.subtraction, 0⟩
        ⟨[number.ofInt 4, number.ofInt 3], [], []⟩ =
      (binary_result .subtraction (number.ofInt 3) (number.ofInt 4)).bind
        (fun v => .ok ⟨[v], [], []⟩) :=
  claim_C1.1 .subtraction (by decide) trivial_ops bfly_code [] 0
    (number.ofInt 3) (number.ofInt 4) [] [] [] (by decide)

/-- C2 (counterexample): for `in0 → t(initial=0) → out` with inputs
`[5, 6, 7]`, `run` returns `[6]`, not `[7]` as claimed; and a delay first
reached during the deferred-update phase (t2 in `in0 → t2 → t1 → out`)
violates the claimed one-sample-delay semantics: after two iterations with
inputs `[5, 6]` the history of its key is `[0, 0]`, not `[0, 5]`. -/
theorem claim_C2_counterexample :
    (sim_run trivial_ops delay_sim true none true).2 = .ok [number.ofInt 6] ∧
    (.ok [number.ofInt 6] : Except run_error (List number)) ≠ .ok [number.ofInt 7] ∧
    (sim_results (run_for trivial_ops chain_sim 2 true none true).1).lookup "t2" =
      some [number.zero, number.zero] ∧
    (some [number.zero, number.zero] : Option (List number)) ≠
      some [number.zero, number.ofInt 5] := by
  refine ⟨by decide, by decide, by decide, by decide⟩

/-- C2 (amended): in the unit-delay program the single `UpdateDelay(0)` is
the last instruction, after every instruction consuming `PushDelay(0)`, so
that delay shows one-sample-delay semantics: with inputs `[5, 6, 7]`, `run`
returns `[6]` and the saved history of the `t1` key is `[0, 5, 6]`.  Delays
first reached during the deferred-update phase, however, receive no
`UpdateDelay` at all (the chain program has `PushDelay(1)` but no
`UpdateDelay(1)`), so their registers keep the initial value instead of last
iteration's input. -/
theorem claim_C2 :
    delay_code.instructions =
      [⟨.push_delay 0, 1⟩, ⟨.forward_value, 0⟩, ⟨.push_input 0, 2⟩, ⟨.update_delay 0, 3⟩] ∧
    (sim_run trivial_ops delay_sim true none true).2 = .ok [number.ofInt 6] ∧
    (sim_results (sim_run trivial_ops delay_sim true none true).1).lookup "t1" =
      some [number.ofInt 0, number.ofInt 5, number.ofInt 6] ∧
    chain_code.instructions =
      [⟨.push_delay 0, 1⟩, ⟨.forward_value, 0⟩, ⟨.push_delay 1, 2⟩, ⟨.update_delay 0, 3⟩] ∧
    (sim_results (run_for trivial_ops chain_sim 2 true none true).1).lookup "t2" =
      some [number.zero, number.zero] := by
  refine ⟨by decide, by decide, by decide, by decide, by decide⟩

/-- C4: compiling the delay chain `in0 → t2 → t1 → out` allocates two delay
registers, but the compiled program contains no `UpdateDelay(1)`: the record
deferred while processing the deferred queue is appended past the range-for's
cached end and then discarded with the queue, so delay register 1 is never
written (it still holds its initial value after two iterations with inputs
`[5, 6]`), contradicting the claim that the loop runs until the queue is
empty and every delay register receives exactly one `UpdateDelay`. -/
theorem claim_C4 :
    chain_code.delays = [⟨number.zero, 1⟩, ⟨number.zero, 2⟩] ∧
    chain_code.instructions =
      [⟨.push_delay 0, 1⟩, ⟨.forward_value, 0⟩, ⟨.push_delay 1, 2⟩, ⟨.update_delay 0, 3⟩] ∧
    chain_code.instructions.filter
      (fun ins => ins.type == instruction_type.update_delay 1) = [] ∧
    (run_for trivial_ops chain_sim 2 true none true).1.m_delays =
      [number.zero, number.zero] := by
  refine ⟨by decide, by decide, by decide, by decide⟩

/-- C5: `Quantize(mask)` fails with `ComplexQuantize` exactly when the value
has a nonzero imaginary part; otherwise it replaces the top of stack with
the real part cast to int64 ANDed with the mask; `17.0` with `bits=4`
(mask 15) yields `1.0`, and `2.0 + 1.0i` fails. -/
theorem claim_C5 :
    (∀ (v : number) (mask : Int),
      (truncate_value v mask = .error .complex_quantize ↔ rat.isNonZero v.im = true) ∧
      (rat.isNonZero v.im = false →
        truncate_value v mask = .ok (number.ofInt (i64land (rat.truncToI64 v.re) mask)))) ∧
    (∀ (eops : extra_ops) (code : simulation_code) (inputs : List number) (ri : Nat)
      (mask : Int) (v : number) (rest res ds : List number),
      rest.length < code.required_stack_size →
      execute_opcode eops code inputs true ⟨.quantize mask, ri⟩ ⟨v :: rest, res, ds⟩ =
        (truncate_value v mask).bind (fun v2 => .ok ⟨v2 :: rest, res, ds⟩)) ∧
    truncate_value (number.ofInt 17) 15 = .ok (number.ofInt 1) ∧
    truncate_value ⟨rat.ofInt 2, rat.ofInt 1⟩ 15 = .error .complex_quantize :=
  ⟨truncate_value_spec, quantize_exec, by decide, by decide⟩

/-- Witness for C5: quantizing the real value 17 on a concrete stack. -/
theorem claim_C5_witness :
    truncate_value (number.ofInt 17) 15 =
      .ok (number.ofInt (i64land (rat.truncToI64 (number.ofInt 17).re) 15)) ∧
    execute_opcode trivial_ops quant_code [] true ⟨.quantize 15, 0⟩
        ⟨[number.ofInt 17], [], []⟩ =
      (truncate_value (number.ofInt 17) 15).bind (fun v2 => .ok ⟨[v2], [], []⟩) :=
  ⟨(claim_C5.1 (number.ofInt 17) 15).2 (by decide),
   claim_C5.2.1 trivial_ops quant_code [] 0 15 (number.ofInt 17) [] [] [] (by decide)⟩

/-- C6 (counterexample): with `quantize=false` a `Quantize` instruction is
*not* executed as written: the program `c(17) --bits=4--> out` leaves 17 on
the stack, while with `quantize=true` it masks to 1, so the two runs
disagree, contradicting the claim that masking happens exactly as with
`quantize=true`. -/
theorem claim_C6_counterexample :
    (run_simulation trivial_ops quant_code [] [] none false).toOption.map
      (fun p => p.1.stack) = some [number.ofInt 17] ∧
    (run_simulation trivial_ops quant_code [] [] none true).toOption.map
      (fun p => p.1.stack) = some [number.ofInt 1] ∧
    (some [number.ofInt 17] : Option (List number)) ≠ some [number.ofInt 1] := by
  refine ⟨by decide, by decide, by decide⟩

/-- C6 (amended): with `quantize=false` the interpreter ignores
`bits_override` entirely (the run is identical to one with no override) and
skips every `Quantize` instruction as a no-op, leaving the stack unchanged —
so no quantization is applied at all (the 4-bit signal carrying 17 comes out
as 17). -/
theorem claim_C6 :
    (∀ (eops : extra_ops) (code : simulation_code) (inputs delays : List number)
      (bo : Option Nat),
      run_simulation eops code inputs delays bo false =
        run_simulation eops code inputs delays none false) ∧
    (∀ (eops : extra_ops) (code : simulation_code) (inputs : List number)
      (mask : Int) (ri : Nat) (st : interp_state),
      execute_opcode eops code inputs false ⟨.quantize mask, ri⟩ st = .ok st) ∧
    (run_simulation trivial_ops quant_code [] [] none false).toOption.map
      (fun p => p.1.stack) = some [number.ofInt 17] :=
  ⟨fun eops code inputs delays bo => by
      simp only [run_simulation, setup_not_quantize],
   fun _ _ _ _ _ _ => rfl,
   by decide⟩

/-- C7: `clear_state` empties the delay-register vector (`m_delays.clear()`)
instead of restoring each register to its delay's `initial_value`; the other
members (code, iteration, results, input functions) are untouched.  On the
unit-delay simulation the registers should be `[0]` afterwards but are `[]`,
and a subsequent `step` fails the interpreter's entry assertion
`delays.size() == code.delays.size()` instead of running. -/
theorem claim_C7 :
    (∀ sim : simulation,
      (clear_state sim).m_code = sim.m_code ∧
      (clear_state sim).m_iteration = sim.m_iteration ∧
      (clear_state sim).m_results = sim.m_results ∧
      (clear_state sim).m_input_functions = sim.m_input_functions ∧
      (clear_state sim).m_delays = []) ∧
    delay_code.delays.map (fun d => d.initial_value) = [number.zero] ∧
    delay_sim.m_delays = [number.zero] ∧
    (clear_state delay_sim).m_delays = [] ∧
    (sim_step trivial_ops (clear_state delay_sim) true none true).2 =
      .error .assertion_failed :=
  ⟨fun sim => ⟨rfl, rfl, rfl, rfl, rfl⟩, by decide, by decide, by decide, by decide⟩

/-- C8: `begin_operation_output` fails with `DirectFeedbackLoop` exactly
when the output being begun is already in progress and the node's
`type_name` is not `"t"`; the direct-feedback graph fails compilation with
that error, while the accumulator (a cycle through a delay node) compiles
successfully. -/
theorem claim_C8 :
    (∀ (σ : compiler_state) (node : graph_node) (op_id output_index : Nat) (pfx : String),
      begin_operation_output σ node op_id output_index pfx =
          .error .direct_feedback_loop ↔
        (σ.m_incomplete_outputs.contains (op_id, output_index) = true ∧
          node.type_name ≠ "t")) ∧
    compile_err (compile_simulation fb_graph 50) = some .direct_feedback_loop ∧
    compile_ok (compile_simulation acc_graph 50) = true :=
  ⟨begin_operation_output_dfl_iff, by decide, by decide⟩

/-- Witness for C8: the cycle check fires on a concrete in-progress output
of a non-delay node. -/
theorem claim_C8_witness :
    begin_operation_output dfl_state dfl_node 0 0 "" = .error .direct_feedback_loop :=
  (claim_C8.1 dfl_state dfl_node 0 0 "").mpr ⟨by decide, by decide⟩

/-- C9: a bound finite input sequence is indexed with bounds checking
(`values.at(n)`): reading any iteration at or past its length fails with an
out-of-range error rather than fabricating a sample, the vector provider
binds exactly that checked closure, and advancing the unit-delay driver
(bound to `[5, 6, 7]`) to any iteration ≥ 4 — e.g. `run_for 4` — fails with
that error when iteration 3's input is gathered. -/
theorem claim_C9 :
    (∀ (values : List number) (n : Nat), values.length ≤ n →
      vec_input_function values n = .error .input_out_of_range) ∧
    (∀ (sim : simulation) (index : Nat) (values : List number),
      (set_input sim index (.vec values)).2 = none →
      (set_input sim index (.vec values)).1.m_input_functions.get? index =
        some (vec_input_function values)) ∧
    (∀ k, (run_until trivial_ops delay_sim (k + 4) true none true).2 =
      .error .input_out_of_range) ∧
    (run_for trivial_ops delay_sim 4 true none true).2 = .error .input_out_of_range :=
  ⟨vec_input_function_oob, set_input_vec_get, fun _ => rfl, by decide⟩

/-- Witness for C9: index 3 of the bound sequence `[5, 6, 7]` fails, and the
binding on the unit-delay driver stores the checked closure. -/
theorem claim_C9_witness :
    vec_input_function [number.ofInt 5, number.ofInt 6, number.ofInt 7] 3 =
      .error .input_out_of_range ∧
    (set_input (simulation_of_code delay_code) 0
        (.vec [number.ofInt 5, number.ofInt 6, number.ofInt 7])).1.m_input_functions.get? 0 =
      some (vec_input_function [number.ofInt 5, number.ofInt 6, number.ofInt 7]) ∧
    (run_until trivial_ops delay_sim 4 true none true).2 = .error .input_out_of_range :=
  ⟨claim_C9.1 [number.ofInt 5, number.ofInt 6, number.ofInt 7] 3 (by decide),
   claim_C9.2.1 (simulation_of_code delay_code) 0
     [number.ofInt 5, number.ofInt 6, number.ofInt 7] (by decide),
   claim_C9.2.2.1 0⟩

/-- C10: `set_inputs` checks the provider-list length against the input
count before binding anything, so on mismatch it fails leaving every input
function unchanged; on success, `none` entries leave the existing function
in place and each `some` entry rebinds its index to the provider's
function. -/
theorem claim_C10 :
    (∀ (sim : simulation) (providers : List (Option input_provider)),
      providers.length ≠ sim.m_input_functions.length →
      set_inputs sim providers = (sim, some .wrong_number_of_inputs)) ∧
    (∀ (sim : simulation) (providers : List (Option input_provider)),
      (set_inputs sim providers).2 = none →
      ∀ i,
        (providers.get? i = some none →
          (set_inputs sim providers).1.m_input_functions.get? i =
            sim.m_input_functions.get? i) ∧
        (∀ p, providers.get? i = some (some p) →
          (set_inputs sim providers).1.m_input_functions.get? i =
            some (provider_function p))) := by
  constructor
  · intro sim providers h
    unfold set_inputs
    rw [if_pos h]
  · intro sim providers h i
    unfold set_inputs at h ⊢
    by_cases hlen : providers.length ≠ sim.m_input_functions.length
    · rw [if_pos hlen] at h
      cases h
    · rw [if_neg hlen] at h ⊢
      have h3 := set_inputs_loop_spec providers sim 0 h i
      rw [Nat.zero_add] at h3
      exact h3

/-- Witness for C10: a one-entry list on a two-input simulation is rejected
with the state unchanged, and on success a `some` entry is rebound. -/
theorem claim_C10_witness :
    set_inputs two_input_sim [some (.num (number.ofInt 1))] =
      (two_input_sim, some .wrong_number_of_inputs) ∧
    (set_inputs two_input_sim [none, some (.num (number.ofInt 1))]).1.m_input_functions.get? 1 =
      some (provider_function (.num (number.ofInt 1))) :=
  ⟨claim_C10.1 two_input_sim [some (.num (number.ofInt 1))] (by decide),
   (claim_C10.2 two_input_sim [none, some (.num (number.ofInt 1))] (by decide) 1).2
     (.num (number.ofInt 1)) rfl⟩

/-- C3: for every program produced by `compile_simulation`,
`output_count ≤ required_stack_size`; walking the full instruction sequence
from depth 0 tracks every instruction's operand requirement, never exceeds
`required_stack_size`, stays nonempty after each step, and ends at exactly
`output_count` (`depth_run`); and operationally one interpreter iteration
never fails with stack overflow, stack underflow or an empty peek, and on
success returns exactly `output_count` values as the iteration's outputs. -/
theorem claim_C3 (g : graph) (fuel : Nat) (code : simulation_code)
    (hc : compile_simulation g fuel = .ok code) :
    code.output_count ≤ code.required_stack_size ∧
    depth_run code 0 code.instructions 0 = some code.output_count ∧
    ∀ (eops : extra_ops) (inputs delays : List number) (bits : Option Nat)
      (truncate : Bool),
      match run_simulation eops code inputs delays bits truncate with
      | .error e => e ≠ .stack_overflow ∧ e ≠ .stack_underflow ∧ e ≠ .empty_peek
      | .ok res => res.1.stack.length = code.output_count := by
  obtain ⟨hdr, hle⟩ := compile_depth g fuel code hc
  exact ⟨hle, hdr, fun eops inputs delays bits truncate =>
    run_simulation_spec eops code inputs delays bits truncate hdr⟩

theorem claim_C3_witness :
    bfly_code.output_count ≤ bfly_code.required_stack_size ∧
    depth_run bfly_code 0 bfly_code.instructions 0 = some bfly_code.output_count ∧
    ∀ (eops : extra_ops) (inputs delays : List number) (bits : Option Nat)
      (truncate : Bool),
      match run_simulation eops bfly_code inputs delays bits truncate with
      | .error e => e ≠ .stack_overflow ∧ e ≠ .stack_underflow ∧ e ≠ .empty_peek
      | .ok res => res.1.stack.length = bfly_code.output_count :=
  claim_C3 bfly_graph 50 bfly_code (by rfl)
